import Mathlib

/-!
# kitty/parser.c : the control-stream decoder

A shallow embedding of `kitty/parser.c`: the Normal and Escape mode handlers,
the OSC and DCS accumulators and the decode loop of `_parse_bytes`, followed by
theorems about them.

Conventions of the embedding.

* Machine integers are `Nat`.  The loop index of `_parse_bytes` is an
  `unsigned int` and is kept modulo `2 ^ 32`, because the loop steps it back
  below zero; so is the unguarded increment of `parser_buf_pos` in `dispatch_osc`
  and `dispatch_dcs`.  The buffered appends increment `parser_buf_pos` from `0` or
  under the guard `parser_buf_pos < PARSER_BUF_SZ - 1` and carry no reduction.
* `decode_utf8`, the control codes and `PARSER_BUF_SZ` are declared in headers that
  are not among the sources.  `_parse_bytes` takes the decoder as a parameter; the
  table-driven decoder `decode_utf8` at the end of the model is the instance used
  where a concrete decoder is needed.
* Every handler returns the new `Screen` together with the list of operations
  it performed, oldest first: calls into the terminal model (`screen_bell`,
  `screen_draw`, ...), error reports (`REPORT_ERROR`) and the payload dispatches
  `dispatch_osc` / `dispatch_dcs`.  The terminal model itself is external: its
  functions are recorded as operations and do not touch the parser fields.
* A write `parser_buf[i] = v` with `i` outside the array is undefined behaviour
  in C; the embedding records it as the operation `Op.out_of_bounds i`.
-/

namespace Kitty

/-! ## Control codes (control-codes.h) -/

/-- Modelled from the spec: `control-codes.h` is not among the sources; the
control codes named by the glossary carry their standard ECMA-48 values. -/
abbrev NUL : Nat := 0x00
/-- Modelled from the spec: control code BEL (control-codes.h). -/
abbrev BEL : Nat := 0x07
/-- Modelled from the spec: control code BS (control-codes.h). -/
abbrev BS : Nat := 0x08
/-- Modelled from the spec: control code HT (control-codes.h). -/
abbrev HT : Nat := 0x09
/-- Modelled from the spec: control code LF (control-codes.h). -/
abbrev LF : Nat := 0x0a
/-- Modelled from the spec: control code VT (control-codes.h). -/
abbrev VT : Nat := 0x0b
/-- Modelled from the spec: control code FF (control-codes.h). -/
abbrev FF : Nat := 0x0c
/-- Modelled from the spec: control code CR (control-codes.h). -/
abbrev CR : Nat := 0x0d
/-- Modelled from the spec: control code SO (control-codes.h). -/
abbrev SO : Nat := 0x0e
/-- Modelled from the spec: control code SI (control-codes.h). -/
abbrev SI : Nat := 0x0f
/-- Modelled from the spec: control code ESC (control-codes.h). -/
abbrev ESC : Nat := 0x1b
/-- Modelled from the spec: control code DEL (control-codes.h). -/
abbrev DEL : Nat := 0x7f
/-- Modelled from the spec: control code IND (control-codes.h). -/
abbrev IND : Nat := 0x84
/-- Modelled from the spec: control code NEL (control-codes.h). -/
abbrev NEL : Nat := 0x85
/-- Modelled from the spec: control code HTS (control-codes.h). -/
abbrev HTS : Nat := 0x88
/-- Modelled from the spec: control code RI (control-codes.h). -/
abbrev RI : Nat := 0x8d
/-- Modelled from the spec: control code DCS (control-codes.h). -/
abbrev DCS : Nat := 0x90
/-- Modelled from the spec: control code CSI (control-codes.h). -/
abbrev CSI : Nat := 0x9b
/-- Modelled from the spec: control code ST (control-codes.h). -/
abbrev ST : Nat := 0x9c
/-- Modelled from the spec: control code OSC (control-codes.h). -/
abbrev OSC : Nat := 0x9d

/-- Modelled from the spec: final byte `P` of ESC P (control-codes.h). -/
abbrev ESC_DCS : Nat := 0x50
/-- Modelled from the spec: final byte `]` of ESC ] (control-codes.h). -/
abbrev ESC_OSC : Nat := 0x5d
/-- Modelled from the spec: final byte `[` of ESC [ (control-codes.h). -/
abbrev ESC_CSI : Nat := 0x5b
/-- Modelled from the spec: final byte `\` of ESC \ (control-codes.h). -/
abbrev ESC_ST : Nat := 0x5c
/-- Modelled from the spec: final byte `c` of the reset command (control-codes.h). -/
abbrev ESC_RIS : Nat := 0x63
/-- Modelled from the spec: final byte `D` of the index command (control-codes.h). -/
abbrev ESC_IND : Nat := 0x44
/-- Modelled from the spec: final byte `E` of the next-line command (control-codes.h). -/
abbrev ESC_NEL : Nat := 0x45
/-- Modelled from the spec: final byte `M` of the reverse-index command (control-codes.h). -/
abbrev ESC_RI : Nat := 0x4d
/-- Modelled from the spec: final byte `H` of the set-tab-stop command (control-codes.h). -/
abbrev ESC_HTS : Nat := 0x48
/-- Modelled from the spec: final byte `7` of the save-cursor command (control-codes.h). -/
abbrev ESC_DECSC : Nat := 0x37
/-- Modelled from the spec: final byte `8` of the restore-cursor command (control-codes.h). -/
abbrev ESC_DECRC : Nat := 0x38
/-- Modelled from the spec: final byte `>` of the normal-keypad command (control-codes.h). -/
abbrev ESC_DECPNM : Nat := 0x3e
/-- Modelled from the spec: final byte `=` of the alternate-keypad command (control-codes.h). -/
abbrev ESC_DECPAM : Nat := 0x3d

/-- Modelled from the spec: decoder result "accepted codepoint", which is also
the clean decoder state (data-types.h). -/
abbrev UTF8_ACCEPT : Nat := 0
/-- Modelled from the spec: decoder result "rejected" (data-types.h). -/
abbrev UTF8_REJECT : Nat := 1

/-! ## Data model -/

/-- The messages passed to `REPORT_ERROR`, with their arguments. -/
inductive ParseError where
  /-- "Unhandled charset change command (SO), ignoring" -/
  | charset_so
  /-- "Unhandled charset change command (SI), ignoring" -/
  | charset_si
  /-- "Unknown char after ESC: 0x%x" -/
  | unknown_esc (ch : Nat)
  /-- "Unhandled charset related escape code: 0x%x 0x%x" -/
  | unhandled_charset (b0 b1 : Nat)
  /-- "OSC sequence too long, truncating." -/
  | osc_too_long
  /-- "DCS sequence too long, truncating." -/
  | dcs_too_long
  /-- "DCS sequence contained non-printable character: 0x%x ignoring the sequence" -/
  | dcs_non_printable (ch : Nat)
  deriving DecidableEq, Repr

/-- One observable operation of the parser. -/
inductive Op where
  | screen_bell
  | screen_backspace
  | screen_tab
  | screen_linefeed
  | screen_carriage_return
  | screen_index
  | screen_reverse_index
  | screen_set_tab_stop
  | screen_reset
  | screen_save_cursor
  | screen_restore_cursor
  | screen_normal_keypad_mode
  | screen_alternate_keypad_mode
  /-- `REPORT_DRAW(ch); screen_draw(screen, ch)` -/
  | screen_draw (ch : Nat)
  /-- `REPORT_ERROR(...)` -/
  | report_error (e : ParseError)
  /-- A call of `dispatch_osc` made while `parser_buf_pos = len`. -/
  | dispatch_osc (len : Nat)
  /-- A call of `dispatch_dcs` made while `parser_buf_pos = len`. -/
  | dispatch_dcs (len : Nat)
  /-- A write to `parser_buf[idx]` with `idx` outside the array. -/
  | out_of_bounds (idx : Nat)
  deriving DecidableEq, Repr

/-- The parser fields of `Screen`.  `parser_state` is `0` in Normal mode and
otherwise the introducer (`ESC`, `CSI`, `OSC`, `DCS`) of the sequence being read.
`parser_buf` is the array `parser_buf[PARSER_BUF_SZ]`. -/
structure Screen where
  parser_state : Nat
  parser_buf_pos : Nat
  parser_buf : List Nat
  utf8_state : Nat
  deriving DecidableEq, Repr

/-- Modelled from the spec: `PARSER_BUF_SZ` (data-types.h), the fixed capacity
`BUF_CAP` of the Parse Buffer, taken as the length of the array. -/
def PARSER_BUF_SZ (screen : Screen) : Nat := screen.parser_buf.length

/-- Modelled from the spec: the Parse Buffer is a byte sequence (its declaration
is in data-types.h), so a stored codepoint keeps its low eight bits. -/
def parser_buf_cell (ch : Nat) : Nat := ch % 256

/-- A read of `parser_buf[i]`. -/
def buf_read (screen : Screen) (i : Nat) : Nat := screen.parser_buf.getD i 0

/-- The assignment `screen->parser_buf[i] = ch`. -/
def buf_write (screen : Screen) (i ch : Nat) : Screen × List Op :=
  if i < PARSER_BUF_SZ screen then
    ({ screen with parser_buf := screen.parser_buf.set i (parser_buf_cell ch) }, [])
  else
    (screen, [Op.out_of_bounds i])

/-- `#define SET_STATE(state) screen->parser_state = state; screen->parser_buf_pos = 0;` -/
def SET_STATE (screen : Screen) (state : Nat) : Screen :=
  { screen with parser_state := state, parser_buf_pos := 0 }

/-! ## Normal mode -/

/-- `handle_normal_mode_char` (parser.c:57-98). -/
def handle_normal_mode_char (screen : Screen) (ch : Nat) : Screen × List Op :=
  if ch = BEL then (screen, [Op.screen_bell])
  else if ch = BS then (screen, [Op.screen_backspace])
  else if ch = HT then (screen, [Op.screen_tab])
  else if ch = LF ∨ ch = VT ∨ ch = FF ∨ ch = NEL then (screen, [Op.screen_linefeed])
  else if ch = CR then (screen, [Op.screen_carriage_return])
  else if ch = SO then (screen, [Op.report_error ParseError.charset_so])
  else if ch = SI then (screen, [Op.report_error ParseError.charset_si])
  else if ch = IND then (screen, [Op.screen_index])
  else if ch = RI then (screen, [Op.screen_reverse_index])
  else if ch = HTS then (screen, [Op.screen_set_tab_stop])
  else if ch = ESC ∨ ch = CSI ∨ ch = OSC ∨ ch = DCS then (SET_STATE screen ch, [])
  else if ch = NUL ∨ ch = DEL then (screen, [])
  else (screen, [Op.screen_draw ch])

/-! ## Esc mode -/

/-- `handle_esc_mode_char` (parser.c:101-156). -/
def handle_esc_mode_char (screen : Screen) (ch : Nat) : Screen × List Op :=
  if screen.parser_buf_pos = 0 then
    if ch = ESC_DCS then (SET_STATE screen DCS, [])
    else if ch = ESC_OSC then (SET_STATE screen OSC, [])
    else if ch = ESC_CSI then (SET_STATE screen CSI, [])
    else if ch = ESC_RIS then (SET_STATE screen 0, [Op.screen_reset])
    else if ch = ESC_IND then (SET_STATE screen 0, [Op.screen_index])
    else if ch = ESC_NEL then (SET_STATE screen 0, [Op.screen_linefeed])
    else if ch = ESC_RI then (SET_STATE screen 0, [Op.screen_reverse_index])
    else if ch = ESC_HTS then (SET_STATE screen 0, [Op.screen_set_tab_stop])
    else if ch = ESC_DECSC then (SET_STATE screen 0, [Op.screen_save_cursor])
    else if ch = ESC_DECRC then (SET_STATE screen 0, [Op.screen_restore_cursor])
    else if ch = ESC_DECPNM then (SET_STATE screen 0, [Op.screen_normal_keypad_mode])
    else if ch = ESC_DECPAM then (SET_STATE screen 0, [Op.screen_alternate_keypad_mode])
    else if ch = 0x25 ∨ ch = 0x28 ∨ ch = 0x29 ∨ ch = 0x2a ∨ ch = 0x2b ∨ ch = 0x2d
        ∨ ch = 0x2e ∨ ch = 0x2f ∨ ch = 0x20 then
      -- screen->parser_buf[screen->parser_buf_pos++] = ch;
      let w := buf_write screen screen.parser_buf_pos ch
      ({ w.1 with parser_buf_pos := screen.parser_buf_pos + 1 }, w.2)
    else
      (SET_STATE screen 0, [Op.report_error (ParseError.unknown_esc ch)])
  else
    if buf_read screen 0 = 0x25 ∧ ch = 0x47 then
      -- switch to utf-8, since we are always in utf-8, ignore.
      (SET_STATE screen 0, [])
    else
      (SET_STATE screen 0,
        [Op.report_error (ParseError.unhandled_charset (buf_read screen 0) (buf_read screen 1))])

/-! ## OSC and DCS mode -/

/-- `dispatch_osc` (parser.c:159-162). -/
def dispatch_osc (screen : Screen) : Screen × List Op :=
  ({ screen with parser_buf_pos := (screen.parser_buf_pos + 1) % 2 ^ 32 },
    [Op.dispatch_osc screen.parser_buf_pos])

/-- `dispatch_dcs` (parser.c:166-169). -/
def dispatch_dcs (screen : Screen) : Screen × List Op :=
  ({ screen with parser_buf_pos := (screen.parser_buf_pos + 1) % 2 ^ 32 },
    [Op.dispatch_dcs screen.parser_buf_pos])

/-- `accumulate_osc` (parser.c:174-198).  The first component is the returned
`bool`.  The `case ESC_ST` arm has no `break`: when its test fails, control
falls through into `case BEL`. -/
def accumulate_osc (screen : Screen) (ch : Nat) : Bool × Screen × List Op :=
  if ch = ST then (true, screen, [])
  else if ch = ESC_ST then
    if screen.parser_buf_pos > 0 ∧ buf_read screen (screen.parser_buf_pos - 1) = ESC then
      (true, { screen with parser_buf_pos := screen.parser_buf_pos - 1 }, [])
    else
      -- falls through to case BEL
      (true, screen, [])
  else if ch = BEL then (true, screen, [])
  else if ch = NUL ∨ ch = DEL then (false, screen, [])
  else
    if screen.parser_buf_pos ≥ PARSER_BUF_SZ screen - 1 then
      (true, screen, [Op.report_error ParseError.osc_too_long])
    else
      let w := buf_write screen screen.parser_buf_pos ch
      (false, { w.1 with parser_buf_pos := screen.parser_buf_pos + 1 }, w.2)

/-- `accumulate_dcs` (parser.c:200-227). -/
def accumulate_dcs (screen : Screen) (ch : Nat) : Bool × Screen × List Op :=
  if ch = ST then (true, screen, [])
  else if ch = NUL ∨ ch = DEL then (false, screen, [])
  else if ch = ESC ∨ (32 ≤ ch ∧ ch ≤ 126) then
    if screen.parser_buf_pos > 0 ∧ buf_read screen (screen.parser_buf_pos - 1) = ESC then
      if ch = 0x5c then
        (true, { screen with parser_buf_pos := screen.parser_buf_pos - 1 }, [])
      else
        (false, SET_STATE screen ESC, [Op.report_error (ParseError.dcs_non_printable ESC)])
    else if screen.parser_buf_pos ≥ PARSER_BUF_SZ screen - 1 then
      (true, screen, [Op.report_error ParseError.dcs_too_long])
    else
      let w := buf_write screen screen.parser_buf_pos ch
      (false, { w.1 with parser_buf_pos := screen.parser_buf_pos + 1 }, w.2)
  else
    (false, screen, [Op.report_error (ParseError.dcs_non_printable ch)])

/-! ## Parse loop -/

/-- The `case UTF8_ACCEPT:` arm of `_parse_bytes` (parser.c:235-251): one
pipeline cycle on an accepted codepoint, selected by `parser_state`. -/
def accept_codepoint (screen : Screen) (codepoint : Nat) : Screen × List Op :=
  if screen.parser_state = ESC then
    handle_esc_mode_char screen codepoint
  else if screen.parser_state = OSC then
    let a := accumulate_osc screen codepoint
    if a.1 then
      let d := dispatch_osc a.2.1
      (SET_STATE d.1 0, a.2.2 ++ d.2)
    else (a.2.1, a.2.2)
  else if screen.parser_state = DCS then
    let a := accumulate_dcs screen codepoint
    let r := if a.1 then
        let d := dispatch_dcs a.2.1
        (SET_STATE d.1 0, a.2.2 ++ d.2)
      else (a.2.1, a.2.2)
    if r.1.parser_state = ESC then
      let e := handle_esc_mode_char r.1 codepoint
      (e.1, r.2 ++ e.2)
    else r
  else
    handle_normal_mode_char screen codepoint

/-- The interface of `decode_utf8(&state, &codep, byte)`: from the decoder state,
the codepoint accumulator and one byte to the new state (which is also the
returned value) and the new accumulator. -/
abbrev Decoder := Nat → Nat → Nat → Nat × Nat

/-- The `for` loop of `_parse_bytes` (parser.c:233-257) on the byte array `buf`,
`len = buf.length`.  `prev`, `codepoint` and `i` are the locals of the function;
`i` is an `unsigned int`.  Each unit of fuel pays for one iteration; `none` is
returned when the fuel runs out before the loop exits. -/
def parse_loop (decode : Decoder) (buf : List Nat) :
    Nat → Screen → Nat → Nat → Nat → Option (Screen × List Op)
  | 0, _, _, _, _ => none
  | fuel + 1, screen, prev, codepoint, i =>
    if i < buf.length then
      let d := decode screen.utf8_state codepoint (buf.getD i 0)
      let s1 : Screen := { screen with utf8_state := d.1 }
      if d.1 = UTF8_ACCEPT then
        let r := accept_codepoint s1 d.2
        match parse_loop decode buf fuel r.1 r.1.utf8_state d.2 ((i + 1) % 2 ^ 32) with
        | none => none
        | some (s, ops) => some (s, r.2 ++ ops)
      else if d.1 = UTF8_REJECT then
        let s2 : Screen := { s1 with utf8_state := UTF8_ACCEPT }
        -- if (prev != UTF8_ACCEPT) i--;
        let i2 := if prev ≠ UTF8_ACCEPT then (i + (2 ^ 32 - 1)) % 2 ^ 32 else i
        parse_loop decode buf fuel s2 s2.utf8_state d.2 ((i2 + 1) % 2 ^ 32)
      else
        parse_loop decode buf fuel s1 s1.utf8_state d.2 ((i + 1) % 2 ^ 32)
    else some (screen, [])

/-- `_parse_bytes` (parser.c:229-259): `prev` starts as the stored decoder state,
`codepoint` as `0`.  The loop offers a byte at most twice, so `2 * len + 1`
iterations are enough whenever `len < 2 ^ 32`. -/
def _parse_bytes (decode : Decoder) (screen : Screen) (buf : List Nat) :
    Option (Screen × List Op) :=
  parse_loop decode buf (2 * buf.length + 1) screen screen.utf8_state 0 0

/-! ## The UTF-8 decoder (data-types.h) -/

/-- Modelled from the spec: the transition table of the incremental UTF-8 decoder
(not among the sources).  The first 256 entries map a byte to its character class,
the rest map a (state, class) pair to the next state. -/
def utf8_data : List Nat := [
  0,0,0,0,0,0,0,0,0,0,0,0,0,0,0,0,0,0,0,0,0,0,0,0,0,0,0,0,0,0,0,0,
  0,0,0,0,0,0,0,0,0,0,0,0,0,0,0,0,0,0,0,0,0,0,0,0,0,0,0,0,0,0,0,0,
  0,0,0,0,0,0,0,0,0,0,0,0,0,0,0,0,0,0,0,0,0,0,0,0,0,0,0,0,0,0,0,0,
  0,0,0,0,0,0,0,0,0,0,0,0,0,0,0,0,0,0,0,0,0,0,0,0,0,0,0,0,0,0,0,0,
  1,1,1,1,1,1,1,1,1,1,1,1,1,1,1,1,9,9,9,9,9,9,9,9,9,9,9,9,9,9,9,9,
  7,7,7,7,7,7,7,7,7,7,7,7,7,7,7,7,7,7,7,7,7,7,7,7,7,7,7,7,7,7,7,7,
  8,8,2,2,2,2,2,2,2,2,2,2,2,2,2,2,2,2,2,2,2,2,2,2,2,2,2,2,2,2,2,2,
  0xa,0x3,0x3,0x3,0x3,0x3,0x3,0x3,0x3,0x3,0x3,0x3,0x3,0x4,0x3,0x3,
  0xb,0x6,0x6,0x6,0x5,0x8,0x8,0x8,0x8,0x8,0x8,0x8,0x8,0x8,0x8,0x8,
  0x0,0x1,0x2,0x3,0x5,0x8,0x7,0x1,0x1,0x1,0x4,0x6,0x1,0x1,0x1,0x1,
  1,1,1,1,1,1,1,1,1,1,1,1,1,1,1,1,1,0,1,1,1,1,1,0,1,0,1,1,1,1,1,1,
  1,2,1,1,1,1,1,2,1,2,1,1,1,1,1,1,1,1,1,1,1,1,1,2,1,1,1,1,1,1,1,1,
  1,2,1,1,1,1,1,1,1,2,1,1,1,1,1,1,1,1,1,1,1,1,1,3,1,3,1,1,1,1,1,1,
  1,3,1,1,1,1,1,3,1,3,1,1,1,1,1,1,1,3,1,1,1,1,1,1,1,1,1,1,1,1,1,1]

/-- Modelled from the spec: `decode_utf8` (not among the sources), the "feed one
byte, get ACCEPT/REJECT/MORE plus an accumulated codepoint when complete"
capability, as the table-driven automaton called by `_parse_bytes`: the caller
owns both the state and the codepoint accumulator. -/
def decode_utf8 : Decoder := fun state codep byte =>
  let type := utf8_data.getD byte 0
  let codep1 := if state ≠ UTF8_ACCEPT then ((byte &&& 0x3f) ||| (codep <<< 6)) % 2 ^ 32
    else (0xff >>> type) &&& byte
  (utf8_data.getD (256 + state * 16 + type) 0, codep1)


/-! ## Boilerplate: read_bytes -/

/-- Modelled from the spec: the errno value of an interrupted `read` (`errno.h`, a
system header). -/
abbrev EINTR : Nat := 4
/-- Modelled from the spec: the errno value of the "device gone" `read` failure
(`errno.h`, a system header). -/
abbrev EIO : Nat := 5

/-- The outcome of one call `read(fd, screen->read_buf, READ_BUF_SZ)`: `-1` with
`errno` set, or a count `len ≥ 0` with the `len` bytes now at the start of
`read_buf`. -/
inductive ReadOutcome where
  | error (errno : Nat)
  | data (bytes : List Nat)
  deriving DecidableEq, Repr

/-- What `read_bytes` hands back to Python: `Py_RETURN_TRUE`, `Py_RETURN_FALSE`, or
`NULL` with an `OSError` raised from `errno`. -/
inductive PyResult where
  | py_true
  | py_false
  | os_error (errno : Nat)
  deriving DecidableEq, Repr

/-- `read_bytes` (parser.c:283-307) after its arguments are parsed.  The list holds
the outcomes of the successive calls of `read`, the first call first; `none` is
returned when the outcomes run out while the loop is still retrying (or when
`_parse_bytes` does not return). -/
def read_bytes (decode : Decoder) (screen : Screen) :
    List ReadOutcome → Option (PyResult × Screen × List Op)
  | [] => none
  | ReadOutcome.error errno :: rest =>
    if errno = EINTR then read_bytes decode screen rest
    else if errno = EIO then some (PyResult.py_false, screen, [])
    else some (PyResult.os_error errno, screen, [])
  | ReadOutcome.data bytes :: _ =>
    match _parse_bytes decode screen bytes with
    | none => none
    | some r => some (if bytes.length > 0 then PyResult.py_true else PyResult.py_false, r.1, r.2)
/-! ## Predicates used by the theorems -/

/-- The buffer position leaves room for the terminating increment:
`parser_buf_pos ≤ PARSER_BUF_SZ - 1`, in a buffer of at least two cells. -/
def InBounds (s : Screen) : Prop :=
  s.parser_buf_pos ≤ PARSER_BUF_SZ s - 1 ∧ 2 ≤ PARSER_BUF_SZ s

/-- No recorded operation is an out-of-bounds write. -/
def NoOOB (ops : List Op) : Prop := ∀ i, Op.out_of_bounds i ∉ ops

/-- What a handler guarantees about its result `r` when started from `s`: the
position stays in bounds, the array keeps its size, the decoder state is not
touched and no write went out of bounds. -/
def Framed (s : Screen) (r : Screen × List Op) : Prop :=
  InBounds r.1 ∧ PARSER_BUF_SZ r.1 = PARSER_BUF_SZ s ∧ r.1.utf8_state = s.utf8_state ∧ NoOOB r.2

/-- The guarantee `Framed` for the state and operations returned by an accumulator. -/
def AccFramed (s : Screen) (r : Bool × Screen × List Op) : Prop := Framed s r.2

/-- The handlers never touch the decoder state or the size of the array. -/
def Kept (s : Screen) (r : Screen × List Op) : Prop :=
  r.1.utf8_state = s.utf8_state ∧ PARSER_BUF_SZ r.1 = PARSER_BUF_SZ s

/-- The property `Kept` for the state returned by an accumulator. -/
def AccKept (s : Screen) (r : Bool × Screen × List Op) : Prop := Kept s r.2

/-- The loop of `_parse_bytes` as a recursion on the bytes still to be read, for
use in proofs.  At the head of every iteration `prev` equals the stored decoder
state, so a rejected byte is offered again exactly when the state before it was
not clean; the second offer starts from the clean state and cannot be repeated. -/
def feed (decode : Decoder) : Screen → Nat → List Nat → Screen × List Op
  | screen, _, [] => (screen, [])
  | screen, codepoint, b :: rest =>
    let d := decode screen.utf8_state codepoint b
    if d.1 = UTF8_ACCEPT then
      let r := accept_codepoint { screen with utf8_state := d.1 } d.2
      let t := feed decode r.1 d.2 rest
      (t.1, r.2 ++ t.2)
    else if d.1 = UTF8_REJECT then
      if screen.utf8_state ≠ UTF8_ACCEPT then
        let e := decode UTF8_ACCEPT d.2 b
        if e.1 = UTF8_ACCEPT then
          let r := accept_codepoint { screen with utf8_state := e.1 } e.2
          let t := feed decode r.1 e.2 rest
          (t.1, r.2 ++ t.2)
        else if e.1 = UTF8_REJECT then
          feed decode { screen with utf8_state := UTF8_ACCEPT } e.2 rest
        else
          feed decode { screen with utf8_state := e.1 } e.2 rest
      else
        feed decode { screen with utf8_state := UTF8_ACCEPT } d.2 rest
    else
      feed decode { screen with utf8_state := d.1 } d.2 rest


/-- The pipeline cycle `accept_codepoint` run over a sequence of accepted
codepoints, collecting the operations in order. -/
def accept_codepoints : Screen → List Nat → Screen × List Op
  | screen, [] => (screen, [])
  | screen, c :: cs =>
    let r := accept_codepoint screen c
    let t := accept_codepoints r.1 cs
    (t.1, r.2 ++ t.2)

/-- The decoder reads every ASCII byte offered in the clean state as the
codepoint of the same value, whatever the accumulator holds. -/
def AsciiDecoder (decode : Decoder) : Prop :=
  ∀ cp b, b < 0x80 → decode UTF8_ACCEPT cp b = (UTF8_ACCEPT, b)

/-- A codepoint that `accumulate_osc` buffers: none of ST, backslash, BEL, NUL, DEL. -/
def OscPayload (c : Nat) : Prop := c ≠ ST ∧ c ≠ ESC_ST ∧ c ≠ BEL ∧ c ≠ NUL ∧ c ≠ DEL

instance (c : Nat) : Decidable (OscPayload c) := by unfold OscPayload; infer_instance

/-- The most recently buffered byte, if there is one, is not ESC. -/
def NoEscLast (s : Screen) : Prop :=
  ¬(s.parser_buf_pos > 0 ∧ buf_read s (s.parser_buf_pos - 1) = ESC)

/-- A Unicode scalar value: a codepoint below 0x110000 that is not a surrogate. -/
def IsScalar (c : Nat) : Prop := c < 0xD800 ∨ (0xE000 ≤ c ∧ c < 0x110000)

instance (c : Nat) : Decidable (IsScalar c) := by unfold IsScalar; infer_instance

/-- The UTF-8 encoding of a codepoint below 0x110000 (RFC 3629): one byte below
0x80, two below 0x800, three below 0x10000, four otherwise. -/
def utf8_encode (c : Nat) : List Nat :=
  if c < 0x80 then [c]
  else if c < 0x800 then [0xC0 + c / 64, 0x80 + c % 64]
  else if c < 0x10000 then [0xE0 + c / 4096, 0x80 + c / 64 % 64, 0x80 + c % 64]
  else [0xF0 + c / 262144, 0x80 + c / 4096 % 64, 0x80 + c / 64 % 64, 0x80 + c % 64]

/-- The UTF-8 encoding of a sequence of codepoints. -/
def utf8_encode_all : List Nat → List Nat
  | [] => []
  | c :: cs => utf8_encode c ++ utf8_encode_all cs

/-- Started in state `st` with accumulator `cp`, the decoder reads the bytes `bs` as
the single codepoint `c`: every byte but the last leaves it in an intermediate state
(neither accept nor reject), the last one is accepted with `c` accumulated. -/
def Decodes (decode : Decoder) : Nat → Nat → List Nat → Nat → Prop
  | _, _, [], _ => False
  | st, cp, [b], c => decode st cp b = (UTF8_ACCEPT, c)
  | st, cp, b :: b2 :: rest, c =>
    (decode st cp b).1 ≠ UTF8_ACCEPT ∧ (decode st cp b).1 ≠ UTF8_REJECT ∧
      Decodes decode (decode st cp b).1 (decode st cp b).2 (b2 :: rest) c

/-- The decoder is a UTF-8 decoder on well-formed input: from the clean state,
whatever the accumulator holds, it reads the encoding of every Unicode scalar value
as that value. -/
def Utf8Decoder (decode : Decoder) : Prop :=
  ∀ cp c, IsScalar c → Decodes decode UTF8_ACCEPT cp (utf8_encode c) c

/-- The nine charset-selector bytes `% ( ) * + - . / space` that
`handle_esc_mode_char` buffers at position 0. -/
def CharsetSelector (c : Nat) : Prop :=
  c = 0x25 ∨ c = 0x28 ∨ c = 0x29 ∨ c = 0x2a ∨ c = 0x2b ∨ c = 0x2d ∨ c = 0x2e ∨ c = 0x2f ∨ c = 0x20

instance (c : Nat) : Decidable (CharsetSelector c) := by unfold CharsetSelector; infer_instance

/-- The final bytes of the fixed table of `handle_esc_mode_char` at position 0: the
three introducers and the nine one-shot commands. -/
def EscFinal (c : Nat) : Prop :=
  c = ESC_DCS ∨ c = ESC_OSC ∨ c = ESC_CSI ∨ c = ESC_RIS ∨ c = ESC_IND ∨ c = ESC_NEL ∨
    c = ESC_RI ∨ c = ESC_HTS ∨ c = ESC_DECSC ∨ c = ESC_DECRC ∨ c = ESC_DECPNM ∨ c = ESC_DECPAM

instance (c : Nat) : Decidable (EscFinal c) := by unfold EscFinal; infer_instance

/-- After a UTF-8 lead byte (0xC2-0xF4) read in the clean state the decoder is in the
middle of a sequence (neither accept nor reject), and it rejects an ASCII byte
offered there. -/
def LeadByteDecoder (decode : Decoder) : Prop :=
  ∀ cp L, 0xC2 ≤ L → L ≤ 0xF4 →
    (decode UTF8_ACCEPT cp L).1 ≠ UTF8_ACCEPT ∧ (decode UTF8_ACCEPT cp L).1 ≠ UTF8_REJECT ∧
      ∀ b, b < 0x80 →
        (decode (decode UTF8_ACCEPT cp L).1 (decode UTF8_ACCEPT cp L).2 b).1 = UTF8_REJECT

/-- A report made by `accumulate_osc` comes with termination. -/
def OscReportTerminates (r : Bool × Screen × List Op) : Prop :=
  r.1 = false → ∀ e, Op.report_error e ∉ r.2.2

/-- In the clean state the decoder does not look at the accumulator: what it returns
for a byte is the same whatever the accumulator holds. -/
def CleanStartDecoder (decode : Decoder) : Prop :=
  ∀ cp cp2 b, decode UTF8_ACCEPT cp b = decode UTF8_ACCEPT cp2 b

/-- One call of the decoder made by the loop of `_parse_bytes`: the index `i` and the
byte `buf[i]` offered, the decoder state before the call and the state returned. -/
structure Offer where
  index : Nat
  byte : Nat
  state_before : Nat
  result : Nat
  deriving DecidableEq, Repr

/-- The loop `parse_loop` once more, recording next to its result every call of the
decoder, in order.  The control flow is that of `parse_loop`. -/
def parse_loop_offers (decode : Decoder) (buf : List Nat) :
    Nat → Screen → Nat → Nat → Nat → Option (Screen × List Op × List Offer)
  | 0, _, _, _, _ => none
  | fuel + 1, screen, prev, codepoint, i =>
    if i < buf.length then
      let d := decode screen.utf8_state codepoint (buf.getD i 0)
      let o : Offer := ⟨i, buf.getD i 0, screen.utf8_state, d.1⟩
      let s1 : Screen := { screen with utf8_state := d.1 }
      if d.1 = UTF8_ACCEPT then
        let r := accept_codepoint s1 d.2
        match parse_loop_offers decode buf fuel r.1 r.1.utf8_state d.2 ((i + 1) % 2 ^ 32) with
        | none => none
        | some (s, ops, offers) => some (s, r.2 ++ ops, o :: offers)
      else if d.1 = UTF8_REJECT then
        let s2 : Screen := { s1 with utf8_state := UTF8_ACCEPT }
        let i2 := if prev ≠ UTF8_ACCEPT then (i + (2 ^ 32 - 1)) % 2 ^ 32 else i
        match parse_loop_offers decode buf fuel s2 s2.utf8_state d.2 ((i2 + 1) % 2 ^ 32) with
        | none => none
        | some (s, ops, offers) => some (s, ops, o :: offers)
      else
        match parse_loop_offers decode buf fuel s1 s1.utf8_state d.2 ((i + 1) % 2 ^ 32) with
        | none => none
        | some (s, ops, offers) => some (s, ops, o :: offers)
    else some (screen, [], [])

/-- The offers of the byte at index `i`: either one offer that is not a rejection
from a non-clean state, or two, the first rejected from a non-clean state and the
second made from the clean state. -/
def ByteOffers (buf : List Nat) (i : Nat) (g : List Offer) : Prop :=
  (∃ st r, g = [⟨i, buf.getD i 0, st, r⟩] ∧ ¬(r = UTF8_REJECT ∧ st ≠ UTF8_ACCEPT)) ∨
    (∃ st r, st ≠ UTF8_ACCEPT ∧
      g = [⟨i, buf.getD i 0, st, UTF8_REJECT⟩, ⟨i, buf.getD i 0, UTF8_ACCEPT, r⟩])

/-- The groups `groups` are the offers of the bytes at the indices `i`, `i + 1`, ...
up to the end of `buf`, one group per byte, at most two offers per byte. -/
def OfferGroups (buf : List Nat) (i : Nat) (groups : List (List Offer)) : Prop :=
  groups.length = buf.length - i ∧
    (∀ k, k < buf.length - i → ByteOffers buf (i + k) (groups.getD k [])) ∧
    groups.flatten.length ≤ 2 * (buf.length - i)

/-! ## Frame lemmas -/

theorem ite_cases {α : Type} {P : α → Prop} {c : Prop} [Decidable c] {a b : α}
    (ha : c → P a) (hb : ¬c → P b) : P (if c then a else b) := by
  by_cases h : c
  · simpa [h] using ha h
  · simpa [h] using hb h

theorem handle_normal_mode_char_framed (s : Screen) (c : Nat) (h : InBounds s) :
    Framed s (handle_normal_mode_char s c) := by
  obtain ⟨h1, h2⟩ := h
  simp only [PARSER_BUF_SZ] at h1 h2
  unfold handle_normal_mode_char
  repeat' (apply ite_cases <;> intro _)
  all_goals simp [Framed, InBounds, NoOOB, SET_STATE, PARSER_BUF_SZ]
  all_goals omega

theorem handle_esc_mode_char_framed (s : Screen) (c : Nat) (h2 : 2 ≤ PARSER_BUF_SZ s) :
    Framed s (handle_esc_mode_char s c) := by
  simp only [PARSER_BUF_SZ] at h2
  unfold handle_esc_mode_char
  repeat' (apply ite_cases <;> intro _)
  all_goals simp [Framed, InBounds, NoOOB, SET_STATE, PARSER_BUF_SZ, buf_write]
  all_goals first
    | omega
    | (have h0 : s.parser_buf_pos < s.parser_buf.length := by omega
       simp [h0]; omega)

theorem accumulate_osc_framed (s : Screen) (c : Nat) (h : InBounds s) :
    Framed s (accumulate_osc s c).2 := by
  obtain ⟨h1, h2⟩ := h
  simp only [PARSER_BUF_SZ] at h1 h2
  show AccFramed s (accumulate_osc s c)
  unfold accumulate_osc
  repeat' (apply ite_cases <;> intro _)
  all_goals simp [AccFramed, Framed, InBounds, NoOOB, SET_STATE, PARSER_BUF_SZ, buf_write] at *
  all_goals first
    | omega
    | (have h0 : s.parser_buf_pos < s.parser_buf.length := by omega
       simp [h0]; omega)

theorem accumulate_dcs_framed (s : Screen) (c : Nat) (h : InBounds s) :
    Framed s (accumulate_dcs s c).2 := by
  obtain ⟨h1, h2⟩ := h
  simp only [PARSER_BUF_SZ] at h1 h2
  show AccFramed s (accumulate_dcs s c)
  unfold accumulate_dcs
  repeat' (apply ite_cases <;> intro _)
  all_goals simp [AccFramed, Framed, InBounds, NoOOB, SET_STATE, PARSER_BUF_SZ, buf_write] at *
  all_goals first
    | omega
    | (have h0 : s.parser_buf_pos < s.parser_buf.length := by omega
       simp [h0]; omega)

theorem Framed.trans_ops {s t : Screen} {o1 : List Op} {r : Screen × List Op}
    (h1 : Framed s (t, o1)) (h2 : Framed t r) : Framed s (r.1, o1 ++ r.2) := by
  obtain ⟨_, b1, c1, d1⟩ := h1
  obtain ⟨a2, b2, c2, d2⟩ := h2
  refine ⟨a2, ?_, ?_, ?_⟩
  · simpa using b2.trans b1
  · simpa using c2.trans c1
  · intro i hi
    rcases List.mem_append.1 hi with hi | hi
    · exact d1 i hi
    · exact d2 i hi

theorem terminate_framed (s t : Screen) (ops : List Op) (op : Op) (n : Nat)
    (h : Framed s (t, ops)) (hop : ∀ i, op ≠ Op.out_of_bounds i) :
    Framed s (SET_STATE { t with parser_buf_pos := n } 0, ops ++ [op]) := by
  obtain ⟨⟨a1, a2⟩, b, c, d⟩ := h
  simp only [PARSER_BUF_SZ] at *
  refine ⟨⟨by simp [SET_STATE], by simpa [SET_STATE, PARSER_BUF_SZ] using a2⟩,
    by simpa [SET_STATE, PARSER_BUF_SZ] using b, by simpa [SET_STATE] using c, ?_⟩
  intro i hi
  rcases List.mem_append.1 hi with hi | hi
  · exact d i hi
  · have hi2 : Op.out_of_bounds i = op := by simpa using hi
    exact hop i hi2.symm

theorem accept_codepoint_framed (s : Screen) (c : Nat) (h : InBounds s) :
    Framed s (accept_codepoint s c) := by
  unfold accept_codepoint
  apply ite_cases <;> intro _
  · exact handle_esc_mode_char_framed s c h.2
  apply ite_cases <;> intro _
  · have ha := accumulate_osc_framed s c h
    apply ite_cases <;> intro _
    · exact terminate_framed s _ _ _ _ ha (by intro i; simp)
    · exact ha
  apply ite_cases <;> intro _
  · have ha := accumulate_dcs_framed s c h
    have hr : Framed s (if (accumulate_dcs s c).1 = true then
        (SET_STATE (dispatch_dcs (accumulate_dcs s c).2.1).1 0,
          (accumulate_dcs s c).2.2 ++ (dispatch_dcs (accumulate_dcs s c).2.1).2)
        else ((accumulate_dcs s c).2.1, (accumulate_dcs s c).2.2)) := by
      apply ite_cases <;> intro _
      · exact terminate_framed s _ _ _ _ ha (by intro i; simp)
      · exact ha
    apply ite_cases <;> intro _
    · have he := handle_esc_mode_char_framed _ c (hr.2.1 ▸ h.2)
      exact Framed.trans_ops hr he
    · exact hr
  · exact handle_normal_mode_char_framed s c h

theorem index_wrap_succ (i : Nat) (h : i + 1 < 2 ^ 32) : (i + 1) % 2 ^ 32 = i + 1 :=
  Nat.mod_eq_of_lt h

theorem index_wrap_back (i : Nat) (h : i < 2 ^ 32) :
    ((i + (2 ^ 32 - 1)) % 2 ^ 32 + 1) % 2 ^ 32 = i := by
  norm_num at h ⊢
  omega

theorem handle_normal_mode_char_kept (s : Screen) (c : Nat) :
    Kept s (handle_normal_mode_char s c) := by
  unfold handle_normal_mode_char
  repeat' (apply ite_cases <;> intro _)
  all_goals simp [Kept, SET_STATE, PARSER_BUF_SZ]

theorem handle_esc_mode_char_kept (s : Screen) (c : Nat) :
    Kept s (handle_esc_mode_char s c) := by
  unfold handle_esc_mode_char buf_write
  repeat' (apply ite_cases <;> intro _)
  all_goals simp only [Kept, SET_STATE, PARSER_BUF_SZ, true_and]
  all_goals split_ifs <;> simp

theorem accumulate_osc_kept (s : Screen) (c : Nat) : Kept s (accumulate_osc s c).2 := by
  show AccKept s (accumulate_osc s c)
  unfold accumulate_osc buf_write
  repeat' (apply ite_cases <;> intro _)
  all_goals simp only [AccKept, Kept, SET_STATE, PARSER_BUF_SZ, true_and]
  all_goals split_ifs <;> simp

theorem accumulate_dcs_kept (s : Screen) (c : Nat) : Kept s (accumulate_dcs s c).2 := by
  show AccKept s (accumulate_dcs s c)
  unfold accumulate_dcs buf_write
  repeat' (apply ite_cases <;> intro _)
  all_goals simp only [AccKept, Kept, SET_STATE, PARSER_BUF_SZ, true_and]
  all_goals split_ifs <;> simp

theorem accept_codepoint_kept (s : Screen) (c : Nat) : Kept s (accept_codepoint s c) := by
  unfold accept_codepoint
  apply ite_cases <;> intro _
  · exact handle_esc_mode_char_kept s c
  apply ite_cases <;> intro _
  · have ha := accumulate_osc_kept s c
    apply ite_cases <;> intro _
    · exact ⟨ha.1, ha.2⟩
    · exact ha
  apply ite_cases <;> intro _
  · have ha := accumulate_dcs_kept s c
    have hr : Kept s (if (accumulate_dcs s c).1 = true then
        (SET_STATE (dispatch_dcs (accumulate_dcs s c).2.1).1 0,
          (accumulate_dcs s c).2.2 ++ (dispatch_dcs (accumulate_dcs s c).2.1).2)
        else ((accumulate_dcs s c).2.1, (accumulate_dcs s c).2.2)) := by
      apply ite_cases <;> intro _
      · exact ⟨ha.1, ha.2⟩
      · exact ha
    apply ite_cases <;> intro _
    · have he := handle_esc_mode_char_kept
        (if (accumulate_dcs s c).1 = true then
        (SET_STATE (dispatch_dcs (accumulate_dcs s c).2.1).1 0,
          (accumulate_dcs s c).2.2 ++ (dispatch_dcs (accumulate_dcs s c).2.1).2)
        else ((accumulate_dcs s c).2.1, (accumulate_dcs s c).2.2)).1 c
      exact ⟨he.1.trans hr.1, he.2.trans hr.2⟩
    · exact hr
  · exact handle_normal_mode_char_kept s c

theorem accept_codepoint_utf8_state (s : Screen) (c : Nat) :
    (accept_codepoint s c).1.utf8_state = s.utf8_state :=
  (accept_codepoint_kept s c).1

theorem parse_loop_eq_feed (decode : Decoder) (buf : List Nat) (hlen : buf.length < 2 ^ 32) :
    ∀ (fuel : Nat) (s : Screen) (cp i : Nat), i ≤ buf.length →
      2 * (buf.length - i) + 1 ≤ fuel →
      parse_loop decode buf fuel s s.utf8_state cp i = some (feed decode s cp (buf.drop i)) := by
  intro fuel
  induction fuel using Nat.strong_induction_on with
  | _ fuel ih =>
    intro s cp i hi hf
    cases fuel with
    | zero => omega
    | succ fuel =>
      by_cases hlt : i < buf.length
      · have hdrop : buf.drop i = buf.getD i 0 :: buf.drop (i + 1) := by
          rw [List.getD_eq_getElem _ _ hlt]
          exact List.drop_eq_getElem_cons hlt
        have hsucc : (i + 1) % 2 ^ 32 = i + 1 := index_wrap_succ i (by omega)
        rw [hdrop]
        simp only [parse_loop, hlt, if_true, feed, hsucc]
        by_cases hA : (decode s.utf8_state cp (buf.getD i 0)).1 = UTF8_ACCEPT
        · simp only [hA, if_true]
          have := ih fuel (by omega)
            (accept_codepoint { s with utf8_state := UTF8_ACCEPT }
              (decode s.utf8_state cp (buf.getD i 0)).2).1
            (decode s.utf8_state cp (buf.getD i 0)).2 (i + 1) (by omega) (by omega)
          rw [this]
        · simp only [hA, if_false]
          by_cases hR : (decode s.utf8_state cp (buf.getD i 0)).1 = UTF8_REJECT
          · simp only [hR, if_true]
            by_cases hP : s.utf8_state = UTF8_ACCEPT
            · simp only [hP, ne_eq, not_true_eq_false, if_false, hsucc]
              have := ih fuel (by omega)
                { s with utf8_state := UTF8_ACCEPT }
                (decode UTF8_ACCEPT cp (buf.getD i 0)).2 (i + 1) (by omega) (by omega)
              simp only [hP] at this ⊢
              exact this
            · simp only [ne_eq, hP, not_false_eq_true, if_true, index_wrap_back i (by omega)]
              cases fuel with
              | zero => omega
              | succ fuel =>
                simp only [parse_loop, hlt, if_true, hsucc]
                by_cases hA2 : (decode UTF8_ACCEPT (decode s.utf8_state cp (buf.getD i 0)).2
                    (buf.getD i 0)).1 = UTF8_ACCEPT
                · simp only [hA2, if_true]
                  have := ih fuel (by omega)
                    (accept_codepoint { s with utf8_state := UTF8_ACCEPT }
                      (decode UTF8_ACCEPT (decode s.utf8_state cp (buf.getD i 0)).2
                        (buf.getD i 0)).2).1
                    (decode UTF8_ACCEPT (decode s.utf8_state cp (buf.getD i 0)).2
                        (buf.getD i 0)).2 (i + 1) (by omega) (by omega)
                  rw [this]
                · simp only [hA2, if_false]
                  by_cases hR2 : (decode UTF8_ACCEPT (decode s.utf8_state cp (buf.getD i 0)).2
                      (buf.getD i 0)).1 = UTF8_REJECT
                  · simp only [hR2, if_true, ne_eq, not_true_eq_false, if_false, hsucc]
                    exact ih fuel (by omega) { s with utf8_state := UTF8_ACCEPT }
                      _ (i + 1) (by omega) (by omega)
                  · simp only [hR2, if_false]
                    exact ih fuel (by omega)
                      { s with utf8_state := (decode UTF8_ACCEPT
                        (decode s.utf8_state cp (buf.getD i 0)).2 (buf.getD i 0)).1 }
                      _ (i + 1) (by omega) (by omega)
          · simp only [hR, if_false]
            exact ih fuel (by omega) { s with utf8_state := (decode s.utf8_state cp (buf.getD i 0)).1 }
              _ (i + 1) (by omega) (by omega)
      · have : i = buf.length := by omega
        subst this
        simp [parse_loop, feed]

theorem _parse_bytes_eq_feed (decode : Decoder) (s : Screen) (bs : List Nat)
    (hlen : bs.length < 2 ^ 32) : _parse_bytes decode s bs = some (feed decode s 0 bs) := by
  have h := parse_loop_eq_feed decode bs hlen (2 * bs.length + 1) s 0 0 (Nat.zero_le _) (by omega)
  simpa [_parse_bytes] using h

theorem set_utf8_state_self (s : Screen) (st : Nat) (h : s.utf8_state = st) :
    ({ s with utf8_state := st } : Screen) = s := by
  cases s
  simp_all

theorem feed_ascii (decode : Decoder) (hdec : AsciiDecoder decode) :
    ∀ (bs : List Nat) (s : Screen) (cp : Nat), s.utf8_state = UTF8_ACCEPT →
      (∀ b ∈ bs, b < 0x80) → feed decode s cp bs = accept_codepoints s bs := by
  intro bs
  induction bs with
  | nil => intro s cp _ _; rfl
  | cons b rest ih =>
    intro s cp hs hb
    have hd := hdec cp b (hb b (List.mem_cons_self _ _))
    have hrest : ∀ x ∈ rest, x < 0x80 := fun x hx => hb x (List.mem_cons_of_mem _ hx)
    simp only [feed, accept_codepoints, hs, hd, if_true]
    rw [set_utf8_state_self s UTF8_ACCEPT hs]
    rw [ih _ b ((accept_codepoint_utf8_state s b).trans hs) hrest]

theorem _parse_bytes_ascii (decode : Decoder) (hdec : AsciiDecoder decode) (s : Screen)
    (bs : List Nat) (hs : s.utf8_state = UTF8_ACCEPT) (hb : ∀ b ∈ bs, b < 0x80)
    (hlen : bs.length < 2 ^ 32) :
    _parse_bytes decode s bs = some (accept_codepoints s bs) := by
  rw [_parse_bytes_eq_feed decode s bs hlen, feed_ascii decode hdec bs s 0 hs hb]

theorem decode_utf8_ascii : AsciiDecoder decode_utf8 := by
  intro cp b hb
  have key : ∀ b < 0x80, utf8_data.getD b 0 = 0 ∧ (0xff >>> 0) &&& b = b := by decide
  have k0 : utf8_data.getD (256 + UTF8_ACCEPT * 16 + 0) 0 = UTF8_ACCEPT := by decide
  show (utf8_data.getD (256 + UTF8_ACCEPT * 16 + utf8_data.getD b 0) 0,
    if UTF8_ACCEPT ≠ UTF8_ACCEPT then ((b &&& 0x3f) ||| (cp <<< 6)) % 2 ^ 32
    else (0xff >>> utf8_data.getD b 0) &&& b) = (UTF8_ACCEPT, b)
  rw [(key b hb).1, k0, if_neg (by simp), (key b hb).2]

theorem handle_normal_mode_char_printable (s : Screen) (c : Nat) (h1 : 0x20 ≤ c) (h2 : c ≤ 0x7E) :
    handle_normal_mode_char s c = (s, [Op.screen_draw c]) := by
  unfold handle_normal_mode_char
  have e1 : c ≠ BEL := by simp only [BEL]; omega
  have e2 : c ≠ BS := by simp only [BS]; omega
  have e3 : c ≠ HT := by simp only [HT]; omega
  have e4 : ¬(c = LF ∨ c = VT ∨ c = FF ∨ c = NEL) := by simp only [LF, VT, FF, NEL]; omega
  have e5 : c ≠ CR := by simp only [CR]; omega
  have e6 : c ≠ SO := by simp only [SO]; omega
  have e7 : c ≠ SI := by simp only [SI]; omega
  have e8 : c ≠ IND := by simp only [IND]; omega
  have e9 : c ≠ RI := by simp only [RI]; omega
  have e10 : c ≠ HTS := by simp only [HTS]; omega
  have e11 : ¬(c = ESC ∨ c = CSI ∨ c = OSC ∨ c = DCS) := by simp only [ESC, CSI, OSC, DCS]; omega
  have e12 : ¬(c = NUL ∨ c = DEL) := by simp only [NUL, DEL]; omega
  rw [if_neg e1, if_neg e2, if_neg e3, if_neg e4, if_neg e5, if_neg e6, if_neg e7, if_neg e8,
    if_neg e9, if_neg e10, if_neg e11, if_neg e12]

theorem accept_codepoint_normal (s : Screen) (c : Nat) (h : s.parser_state = 0) :
    accept_codepoint s c = handle_normal_mode_char s c := by
  simp [accept_codepoint, h]

theorem accept_codepoints_printable (s : Screen) (hs : s.parser_state = 0) :
    ∀ cs : List Nat, (∀ c ∈ cs, 0x20 ≤ c ∧ c ≤ 0x7E) →
      accept_codepoints s cs = (s, cs.map Op.screen_draw) := by
  intro cs
  induction cs with
  | nil => intro _; rfl
  | cons c rest ih =>
    intro h
    have hc := h c (List.mem_cons_self _ _)
    have hrest := ih (fun x hx => h x (List.mem_cons_of_mem _ hx))
    simp only [accept_codepoints, accept_codepoint_normal s c hs,
      handle_normal_mode_char_printable s c hc.1 hc.2, hrest, List.map_cons, List.singleton_append]

theorem accept_codepoints_esc (s : Screen) (c : Nat) (hs : s.parser_state = 0) :
    accept_codepoints s [ESC, c] = handle_esc_mode_char (SET_STATE s ESC) c := by
  simp [accept_codepoints, accept_codepoint, handle_normal_mode_char, SET_STATE, hs]

theorem _parse_bytes_esc (decode : Decoder) (hdec : AsciiDecoder decode) (s : Screen) (c : Nat)
    (hs : s.parser_state = 0) (hutf : s.utf8_state = UTF8_ACCEPT) (hc : c < 0x80) :
    _parse_bytes decode s [ESC, c] = some (handle_esc_mode_char (SET_STATE s ESC) c) := by
  have hb : ∀ b ∈ [ESC, c], b < 0x80 := by
    intro b hb
    rcases List.mem_cons.1 hb with h | h
    · subst h; decide
    · rw [List.mem_singleton.1 h]; exact hc
  rw [_parse_bytes_ascii decode hdec s [ESC, c] hutf hb (by simp),
    accept_codepoints_esc s c hs]

theorem handle_esc_mode_char_no_dispatch_dcs (s : Screen) (c : Nat) :
    ∀ n, Op.dispatch_dcs n ∉ (handle_esc_mode_char s c).2 := by
  unfold handle_esc_mode_char buf_write
  repeat' (apply ite_cases (P := fun r : Screen × List Op => ∀ n, Op.dispatch_dcs n ∉ r.2)
    <;> intro _)
  all_goals simp

theorem accumulate_dcs_after_esc (s : Screen) (b : Nat) (hpos : 0 < s.parser_buf_pos)
    (hesc : buf_read s (s.parser_buf_pos - 1) = ESC) (hb : 0x20 ≤ b ∧ b ≤ 0x7E)
    (hbs : b ≠ 0x5c) :
    accumulate_dcs s b
      = (false, SET_STATE s ESC, [Op.report_error (ParseError.dcs_non_printable ESC)]) := by
  unfold accumulate_dcs
  have e1 : b ≠ ST := by simp only [ST]; omega
  have e2 : ¬(b = NUL ∨ b = DEL) := by simp only [NUL, DEL]; omega
  have e3 : b = ESC ∨ (32 ≤ b ∧ b ≤ 126) := Or.inr hb
  have e4 : s.parser_buf_pos > 0 ∧ buf_read s (s.parser_buf_pos - 1) = ESC := ⟨hpos, hesc⟩
  rw [if_neg e1, if_neg e2, if_pos e3, if_pos e4, if_neg hbs]

/-- What a run keeps: position in bounds, the size of the array, no write out of bounds. -/
theorem feed_framed (decode : Decoder) :
    ∀ (bs : List Nat) (s : Screen) (cp : Nat), InBounds s →
      InBounds (feed decode s cp bs).1 ∧
        PARSER_BUF_SZ (feed decode s cp bs).1 = PARSER_BUF_SZ s ∧
        NoOOB (feed decode s cp bs).2 := by
  intro bs
  induction bs with
  | nil => intro s cp h; exact ⟨h, rfl, fun i hi => by simp [feed] at hi⟩
  | cons b rest ih =>
    intro s cp h
    have hset : ∀ st, InBounds ({ s with utf8_state := st } : Screen) := fun st => h
    have hacc : ∀ st c cp2,
        InBounds (feed decode (accept_codepoint { s with utf8_state := st } c).1 cp2 rest).1 ∧
          PARSER_BUF_SZ (feed decode (accept_codepoint { s with utf8_state := st } c).1 cp2 rest).1
            = PARSER_BUF_SZ s ∧
          NoOOB ((accept_codepoint { s with utf8_state := st } c).2 ++
            (feed decode (accept_codepoint { s with utf8_state := st } c).1 cp2 rest).2) := by
      intro st c cp2
      obtain ⟨a1, a2, _, a4⟩ := accept_codepoint_framed { s with utf8_state := st } c (hset st)
      obtain ⟨b1, b2, b3⟩ := ih (accept_codepoint { s with utf8_state := st } c).1 cp2 a1
      refine ⟨b1, b2.trans a2, ?_⟩
      intro i hi
      rcases List.mem_append.1 hi with hi | hi
      · exact a4 i hi
      · exact b3 i hi
    simp only [feed]
    split_ifs
    · exact hacc _ _ _
    · exact hacc _ _ _
    · exact ih _ _ (hset _)
    · exact ih _ _ (hset _)
    · exact ih _ _ (hset _)
    · exact ih _ _ (hset _)

theorem accept_codepoints_append (a b : List Nat) :
    ∀ s : Screen, accept_codepoints s (a ++ b)
      = ((accept_codepoints (accept_codepoints s a).1 b).1,
          (accept_codepoints s a).2 ++ (accept_codepoints (accept_codepoints s a).1 b).2) := by
  induction a with
  | nil => intro s; simp [accept_codepoints]
  | cons c rest ih => intro s; simp [accept_codepoints, ih, List.append_assoc]

theorem accumulate_osc_payload (s : Screen) (c : Nat) (hc : OscPayload c)
    (hroom : s.parser_buf_pos + 1 < PARSER_BUF_SZ s) :
    accumulate_osc s c
      = (false, { s with parser_buf := s.parser_buf.set s.parser_buf_pos (parser_buf_cell c),
                         parser_buf_pos := s.parser_buf_pos + 1 }, []) := by
  obtain ⟨h1, h2, h3, h4, h5⟩ := hc
  have e4 : ¬(c = NUL ∨ c = DEL) := by rintro (h | h) <;> contradiction
  have e5 : ¬(s.parser_buf_pos ≥ PARSER_BUF_SZ s - 1) := by omega
  have e6 : s.parser_buf_pos < PARSER_BUF_SZ s := by omega
  unfold accumulate_osc
  rw [if_neg h1, if_neg h2, if_neg h3, if_neg e4, if_neg e5]
  simp [buf_write, e6]

theorem accept_codepoint_osc_payload (s : Screen) (c : Nat) (hs : s.parser_state = OSC)
    (hc : OscPayload c) (hroom : s.parser_buf_pos + 1 < PARSER_BUF_SZ s) :
    accept_codepoint s c
      = ({ s with parser_buf := s.parser_buf.set s.parser_buf_pos (parser_buf_cell c),
                  parser_buf_pos := s.parser_buf_pos + 1 }, []) := by
  simp [accept_codepoint, hs, accumulate_osc_payload s c hc hroom]

/-- A payload that fits is buffered in OSC without any operation. -/
theorem accept_codepoints_osc_payload :
    ∀ (cs : List Nat) (s : Screen), s.parser_state = OSC → (∀ c ∈ cs, OscPayload c) →
      s.parser_buf_pos + cs.length < PARSER_BUF_SZ s →
      ∃ t, accept_codepoints s cs = (t, []) ∧ t.parser_state = OSC ∧
        t.parser_buf_pos = s.parser_buf_pos + cs.length ∧
        PARSER_BUF_SZ t = PARSER_BUF_SZ s ∧ t.utf8_state = s.utf8_state := by
  intro cs
  induction cs with
  | nil => intro s hs _ _; exact ⟨s, rfl, hs, rfl, rfl, rfl⟩
  | cons c rest ih =>
    intro s hs hcs hroom
    simp only [List.length_cons] at hroom
    have hstep := accept_codepoint_osc_payload s c hs (hcs c (List.mem_cons_self _ _))
      (by omega)
    obtain ⟨t, ht, h1, h2, h3, h4⟩ := ih
      { s with parser_buf := s.parser_buf.set s.parser_buf_pos (parser_buf_cell c),
               parser_buf_pos := s.parser_buf_pos + 1 }
      hs (fun x hx => hcs x (List.mem_cons_of_mem _ hx))
      (by simp only [PARSER_BUF_SZ, List.length_set] at hroom ⊢; omega)
    refine ⟨t, ?_, h1, ?_, ?_, h4⟩
    · simp only [accept_codepoints, hstep, ht, List.append_nil]
    · simp only [List.length_cons] at h2 ⊢; omega
    · simpa [PARSER_BUF_SZ] using h3

theorem accept_codepoint_osc_overflow (s : Screen) (c : Nat) (hs : s.parser_state = OSC)
    (hc : OscPayload c) (hfull : PARSER_BUF_SZ s - 1 ≤ s.parser_buf_pos) :
    accept_codepoint s c
      = (SET_STATE s 0,
          [Op.report_error ParseError.osc_too_long, Op.dispatch_osc s.parser_buf_pos]) := by
  obtain ⟨h1, h2, h3, h4, h5⟩ := hc
  have e4 : ¬(c = NUL ∨ c = DEL) := by rintro (h | h) <;> contradiction
  have e5 : s.parser_buf_pos ≥ PARSER_BUF_SZ s - 1 := hfull
  have ha : accumulate_osc s c = (true, s, [Op.report_error ParseError.osc_too_long]) := by
    unfold accumulate_osc
    rw [if_neg h1, if_neg h2, if_neg h3, if_neg e4, if_pos e5]
  simp [accept_codepoint, hs, ha, dispatch_osc, SET_STATE]

theorem buf_read_set_self (s : Screen) (v : Nat) (h : s.parser_buf_pos < PARSER_BUF_SZ s) :
    buf_read { s with parser_buf := s.parser_buf.set s.parser_buf_pos v,
                      parser_buf_pos := s.parser_buf_pos + 1 } s.parser_buf_pos = v := by
  simp only [PARSER_BUF_SZ] at h
  simp [buf_read, List.getD_eq_getElem?_getD, h]

theorem accumulate_dcs_printable (s : Screen) (c : Nat) (hc : 0x20 ≤ c ∧ c ≤ 0x7E)
    (hesc : NoEscLast s) (hroom : s.parser_buf_pos + 1 < PARSER_BUF_SZ s) :
    accumulate_dcs s c
      = (false, { s with parser_buf := s.parser_buf.set s.parser_buf_pos (parser_buf_cell c),
                         parser_buf_pos := s.parser_buf_pos + 1 }, []) := by
  have e1 : c ≠ ST := by simp only [ST]; omega
  have e2 : ¬(c = NUL ∨ c = DEL) := by simp only [NUL, DEL]; omega
  have e3 : c = ESC ∨ (32 ≤ c ∧ c ≤ 126) := Or.inr hc
  have e5 : ¬(s.parser_buf_pos ≥ PARSER_BUF_SZ s - 1) := by omega
  have e6 : s.parser_buf_pos < PARSER_BUF_SZ s := by omega
  unfold accumulate_dcs
  rw [if_neg e1, if_neg e2, if_pos e3, if_neg hesc, if_neg e5]
  simp [buf_write, e6]

theorem accept_codepoint_dcs_printable (s : Screen) (c : Nat) (hs : s.parser_state = DCS)
    (hc : 0x20 ≤ c ∧ c ≤ 0x7E) (hesc : NoEscLast s)
    (hroom : s.parser_buf_pos + 1 < PARSER_BUF_SZ s) :
    accept_codepoint s c
      = ({ s with parser_buf := s.parser_buf.set s.parser_buf_pos (parser_buf_cell c),
                  parser_buf_pos := s.parser_buf_pos + 1 }, []) := by
  simp [accept_codepoint, hs, accumulate_dcs_printable s c hc hesc hroom]

/-- Printable ASCII that fits is buffered in DCS without any operation. -/
theorem accept_codepoints_dcs_printable :
    ∀ (cs : List Nat) (s : Screen), s.parser_state = DCS → (∀ c ∈ cs, 0x20 ≤ c ∧ c ≤ 0x7E) →
      NoEscLast s → s.parser_buf_pos + cs.length < PARSER_BUF_SZ s →
      ∃ t, accept_codepoints s cs = (t, []) ∧ t.parser_state = DCS ∧
        t.parser_buf_pos = s.parser_buf_pos + cs.length ∧
        PARSER_BUF_SZ t = PARSER_BUF_SZ s ∧ t.utf8_state = s.utf8_state ∧ NoEscLast t := by
  intro cs
  induction cs with
  | nil => intro s hs _ he _; exact ⟨s, rfl, hs, rfl, rfl, rfl, he⟩
  | cons c rest ih =>
    intro s hs hcs he hroom
    simp only [List.length_cons] at hroom
    have hc := hcs c (List.mem_cons_self _ _)
    have hstep := accept_codepoint_dcs_printable s c hs hc he (by omega)
    have he2 : NoEscLast { s with
        parser_buf := s.parser_buf.set s.parser_buf_pos (parser_buf_cell c),
        parser_buf_pos := s.parser_buf_pos + 1 } := by
      intro h
      have hr := buf_read_set_self s (parser_buf_cell c) (by omega)
      simp only [Nat.add_sub_cancel] at h
      rw [hr] at h
      have := h.2
      simp only [parser_buf_cell, ESC] at this
      omega
    obtain ⟨t, ht, h1, h2, h3, h4, h5⟩ := ih
      { s with parser_buf := s.parser_buf.set s.parser_buf_pos (parser_buf_cell c),
               parser_buf_pos := s.parser_buf_pos + 1 }
      hs (fun x hx => hcs x (List.mem_cons_of_mem _ hx)) he2
      (by simp only [PARSER_BUF_SZ, List.length_set] at hroom ⊢; omega)
    refine ⟨t, ?_, h1, ?_, ?_, h4, h5⟩
    · simp only [accept_codepoints, hstep, ht, List.append_nil]
    · simp only [List.length_cons] at h2 ⊢; omega
    · simpa [PARSER_BUF_SZ] using h3

theorem accept_codepoint_dcs_overflow (s : Screen) (c : Nat) (hs : s.parser_state = DCS)
    (hc : 0x20 ≤ c ∧ c ≤ 0x7E) (hesc : NoEscLast s)
    (hfull : PARSER_BUF_SZ s - 1 ≤ s.parser_buf_pos) :
    accept_codepoint s c
      = (SET_STATE s 0,
          [Op.report_error ParseError.dcs_too_long, Op.dispatch_dcs s.parser_buf_pos]) := by
  have e1 : c ≠ ST := by simp only [ST]; omega
  have e2 : ¬(c = NUL ∨ c = DEL) := by simp only [NUL, DEL]; omega
  have e3 : c = ESC ∨ (32 ≤ c ∧ c ≤ 126) := Or.inr hc
  have e5 : s.parser_buf_pos ≥ PARSER_BUF_SZ s - 1 := hfull
  have ha : accumulate_dcs s c = (true, s, [Op.report_error ParseError.dcs_too_long]) := by
    unfold accumulate_dcs
    rw [if_neg e1, if_neg e2, if_pos e3, if_neg hesc, if_pos e5]
  simp [accept_codepoint, hs, ha, dispatch_dcs, SET_STATE]

theorem printable_is_osc_payload (c : Nat) (h : 0x20 ≤ c ∧ c ≤ 0x7E ∧ c ≠ 0x5c) :
    OscPayload c := by
  simp only [OscPayload, ST, ESC_ST, BEL, NUL, DEL]
  omega

theorem split_at_overflow (cs : List Nat) (n : Nat) (h : n < cs.length) :
    cs = cs.take n ++ cs.getD n 0 :: cs.drop (n + 1) := by
  rw [List.getD_eq_getElem _ _ h, ← List.drop_eq_getElem_cons h, List.take_append_drop]

/-- An OSC payload of printable ASCII longer than the buffer: nothing is emitted
while `PARSER_BUF_SZ - 1` codepoints are buffered, the next one reports and
dispatches, the rest is drawn in Normal mode. -/
theorem accept_codepoints_osc_too_long (s : Screen) (cs : List Nat)
    (hs : s.parser_state = OSC) (hpos : s.parser_buf_pos = 0) (hcap : 1 ≤ PARSER_BUF_SZ s)
    (hcs : ∀ c ∈ cs, 0x20 ≤ c ∧ c ≤ 0x7E ∧ c ≠ 0x5c) (hlong : PARSER_BUF_SZ s ≤ cs.length) :
    ∃ t, accept_codepoints s (cs.take (PARSER_BUF_SZ s - 1)) = (t, []) ∧
      t.parser_state = OSC ∧ t.parser_buf_pos = PARSER_BUF_SZ s - 1 ∧
      accept_codepoints s cs
        = (SET_STATE t 0,
            [Op.report_error ParseError.osc_too_long, Op.dispatch_osc (PARSER_BUF_SZ s - 1)]
              ++ (cs.drop (PARSER_BUF_SZ s)).map Op.screen_draw) := by
  have hn : PARSER_BUF_SZ s - 1 < cs.length := by omega
  have hsplit := split_at_overflow cs (PARSER_BUF_SZ s - 1) hn
  have hn1 : PARSER_BUF_SZ s - 1 + 1 = PARSER_BUF_SZ s := by omega
  rw [hn1] at hsplit
  have htake : ∀ c ∈ cs.take (PARSER_BUF_SZ s - 1), OscPayload c := fun c hc =>
    printable_is_osc_payload c (hcs c (List.mem_of_mem_take hc))
  have hlt : (cs.take (PARSER_BUF_SZ s - 1)).length = PARSER_BUF_SZ s - 1 := by
    rw [List.length_take]; omega
  obtain ⟨t, ht, h1, h2, h3, _⟩ := accept_codepoints_osc_payload
    (cs.take (PARSER_BUF_SZ s - 1)) s hs htake (by rw [hlt, hpos]; omega)
  rw [hlt, hpos, Nat.zero_add] at h2
  refine ⟨t, ht, h1, h2, ?_⟩
  have hc := hcs (cs.getD (PARSER_BUF_SZ s - 1) 0) (by
    rw [List.getD_eq_getElem _ _ hn]; exact List.getElem_mem _)
  have hover := accept_codepoint_osc_overflow t _ h1 (printable_is_osc_payload _ hc)
    (by rw [h3, h2])
  have hrest := accept_codepoints_printable (SET_STATE t 0) rfl (cs.drop (PARSER_BUF_SZ s))
    (fun c hc => by
      have := hcs c (List.mem_of_mem_drop hc)
      exact ⟨this.1, this.2.1⟩)
  conv_lhs => rw [hsplit]
  rw [accept_codepoints_append, ht]
  simp only [accept_codepoints, hover, hrest, h2, List.nil_append, List.cons_append]

/-- The same for a DCS payload. -/
theorem accept_codepoints_dcs_too_long (s : Screen) (cs : List Nat)
    (hs : s.parser_state = DCS) (hpos : s.parser_buf_pos = 0) (hcap : 1 ≤ PARSER_BUF_SZ s)
    (hcs : ∀ c ∈ cs, 0x20 ≤ c ∧ c ≤ 0x7E ∧ c ≠ 0x5c) (hlong : PARSER_BUF_SZ s ≤ cs.length) :
    ∃ t, accept_codepoints s (cs.take (PARSER_BUF_SZ s - 1)) = (t, []) ∧
      t.parser_state = DCS ∧ t.parser_buf_pos = PARSER_BUF_SZ s - 1 ∧
      accept_codepoints s cs
        = (SET_STATE t 0,
            [Op.report_error ParseError.dcs_too_long, Op.dispatch_dcs (PARSER_BUF_SZ s - 1)]
              ++ (cs.drop (PARSER_BUF_SZ s)).map Op.screen_draw) := by
  have hn : PARSER_BUF_SZ s - 1 < cs.length := by omega
  have hsplit := split_at_overflow cs (PARSER_BUF_SZ s - 1) hn
  have hn1 : PARSER_BUF_SZ s - 1 + 1 = PARSER_BUF_SZ s := by omega
  rw [hn1] at hsplit
  have htake : ∀ c ∈ cs.take (PARSER_BUF_SZ s - 1), 0x20 ≤ c ∧ c ≤ 0x7E := fun c hc => by
    have := hcs c (List.mem_of_mem_take hc)
    exact ⟨this.1, this.2.1⟩
  have hlt : (cs.take (PARSER_BUF_SZ s - 1)).length = PARSER_BUF_SZ s - 1 := by
    rw [List.length_take]; omega
  have he : NoEscLast s := by
    intro h
    have := h.1
    omega
  obtain ⟨t, ht, h1, h2, h3, _, h5⟩ := accept_codepoints_dcs_printable
    (cs.take (PARSER_BUF_SZ s - 1)) s hs htake he (by rw [hlt, hpos]; omega)
  rw [hlt, hpos, Nat.zero_add] at h2
  refine ⟨t, ht, h1, h2, ?_⟩
  have hc := hcs (cs.getD (PARSER_BUF_SZ s - 1) 0) (by
    rw [List.getD_eq_getElem _ _ hn]; exact List.getElem_mem _)
  have hover := accept_codepoint_dcs_overflow t _ h1 ⟨hc.1, hc.2.1⟩ h5 (by rw [h3, h2])
  have hrest := accept_codepoints_printable (SET_STATE t 0) rfl (cs.drop (PARSER_BUF_SZ s))
    (fun c hc => by
      have := hcs c (List.mem_of_mem_drop hc)
      exact ⟨this.1, this.2.1⟩)
  conv_lhs => rw [hsplit]
  rw [accept_codepoints_append, ht]
  simp only [accept_codepoints, hover, hrest, h2, List.nil_append, List.cons_append]

/-! ### The table-driven decoder reads UTF-8 -/

theorem decode_utf8_clean (cp b : Nat) :
    decode_utf8 UTF8_ACCEPT cp b
      = (utf8_data.getD (256 + utf8_data.getD b 0) 0, (0xff >>> utf8_data.getD b 0) &&& b) := by
  simp [decode_utf8]

theorem continuation_bits (cp b : Nat) (hb : 0x80 ≤ b ∧ b < 0xC0) (hcp : cp < 2 ^ 26) :
    ((b &&& 0x3f) ||| (cp <<< 6)) % 2 ^ 32 = cp * 64 + (b - 0x80) := by
  have h1 : b &&& 0x3f = b % 2 ^ 6 := Nat.and_pow_two_sub_one_eq_mod b 6
  have h2 : b % 2 ^ 6 < 2 ^ 6 := Nat.mod_lt _ (by norm_num)
  have h3 : cp <<< 6 = 2 ^ 6 * cp := by rw [Nat.shiftLeft_eq, Nat.mul_comm]
  rw [h1, h3, Nat.lor_comm, ← Nat.mul_add_lt_is_or h2 cp]
  norm_num at hcp ⊢
  omega

theorem decode_utf8_continuation (st cp b : Nat) (hst : st ≠ UTF8_ACCEPT)
    (hb : 0x80 ≤ b ∧ b < 0xC0) (hcp : cp < 2 ^ 26) :
    decode_utf8 st cp b
      = (utf8_data.getD (256 + st * 16 + utf8_data.getD b 0) 0, cp * 64 + (b - 0x80)) := by
  simp only [decode_utf8, ne_eq, hst, not_false_eq_true, if_true, continuation_bits cp b hb hcp]

theorem utf8_lead2 (cp hi : Nat) (h1 : 2 ≤ hi) (h2 : hi < 32) :
    decode_utf8 UTF8_ACCEPT cp (0xC0 + hi) = (2, hi) := by
  have key : ∀ x < 32, 2 ≤ x →
      utf8_data.getD (256 + utf8_data.getD (0xC0 + x) 0) 0 = 2 ∧
        (0xff >>> utf8_data.getD (0xC0 + x) 0) &&& (0xC0 + x) = x := by decide
  rw [decode_utf8_clean, (key hi h2 h1).1, (key hi h2 h1).2]

theorem utf8_lead3 (cp a : Nat) (h : a < 16) :
    decode_utf8 UTF8_ACCEPT cp (0xE0 + a) = (if a = 0 then 4 else if a = 13 then 5 else 3, a) := by
  have key : ∀ x < 16,
      utf8_data.getD (256 + utf8_data.getD (0xE0 + x) 0) 0
          = (if x = 0 then 4 else if x = 13 then 5 else 3) ∧
        (0xff >>> utf8_data.getD (0xE0 + x) 0) &&& (0xE0 + x) = x := by decide
  rw [decode_utf8_clean, (key a h).1, (key a h).2]

theorem utf8_lead4 (cp a : Nat) (h : a < 5) :
    decode_utf8 UTF8_ACCEPT cp (0xF0 + a) = (if a = 0 then 6 else if a = 4 then 8 else 7, a) := by
  have key : ∀ x < 5,
      utf8_data.getD (256 + utf8_data.getD (0xF0 + x) 0) 0
          = (if x = 0 then 6 else if x = 4 then 8 else 7) ∧
        (0xff >>> utf8_data.getD (0xF0 + x) 0) &&& (0xF0 + x) = x := by decide
  rw [decode_utf8_clean, (key a h).1, (key a h).2]

set_option maxRecDepth 8192 in
theorem utf8_continuation_table : ∀ k < 64,
    utf8_data.getD (256 + 2 * 16 + utf8_data.getD (0x80 + k) 0) 0 = 0 ∧
    utf8_data.getD (256 + 3 * 16 + utf8_data.getD (0x80 + k) 0) 0 = 2 ∧
    utf8_data.getD (256 + 7 * 16 + utf8_data.getD (0x80 + k) 0) 0 = 3 ∧
    (32 ≤ k → utf8_data.getD (256 + 4 * 16 + utf8_data.getD (0x80 + k) 0) 0 = 2) ∧
    (k < 32 → utf8_data.getD (256 + 5 * 16 + utf8_data.getD (0x80 + k) 0) 0 = 2) ∧
    (16 ≤ k → utf8_data.getD (256 + 6 * 16 + utf8_data.getD (0x80 + k) 0) 0 = 3) ∧
    (k < 16 → utf8_data.getD (256 + 8 * 16 + utf8_data.getD (0x80 + k) 0) 0 = 3) := by
  decide

theorem utf8_cont (st cp k : Nat) (hst : st ≠ UTF8_ACCEPT) (hk : k < 64) (hcp : cp < 2 ^ 26) :
    decode_utf8 st cp (0x80 + k)
      = (utf8_data.getD (256 + st * 16 + utf8_data.getD (0x80 + k) 0) 0, cp * 64 + k) := by
  rw [decode_utf8_continuation st cp (0x80 + k) hst (by omega) hcp]
  simp

theorem decodes_two (cp hi lo : Nat) (h1 : 2 ≤ hi) (h2 : hi < 32) (h3 : lo < 64) :
    Decodes decode_utf8 UTF8_ACCEPT cp [0xC0 + hi, 0x80 + lo] (hi * 64 + lo) := by
  have t := utf8_continuation_table lo h3
  simp only [Decodes, utf8_lead2 cp hi h1 h2]
  refine ⟨by decide, by decide, ?_⟩
  rw [utf8_cont 2 hi lo (by decide) h3 (by norm_num; omega), t.1]

theorem decodes_three (cp a b c : Nat) (ha : a < 16) (hb : b < 64) (hc : c < 64)
    (h0 : a = 0 → 32 ≤ b) (h13 : a = 13 → b < 32) :
    Decodes decode_utf8 UTF8_ACCEPT cp [0xE0 + a, 0x80 + b, 0x80 + c] ((a * 64 + b) * 64 + c) := by
  have tb := utf8_continuation_table b hb
  have tc := utf8_continuation_table c hc
  simp only [Decodes, utf8_lead3 cp a ha]
  have hst : (if a = 0 then 4 else if a = 13 then 5 else 3) ≠ UTF8_ACCEPT ∧
      (if a = 0 then 4 else if a = 13 then 5 else 3) ≠ UTF8_REJECT := by
    split_ifs <;> decide
  refine ⟨hst.1, hst.2, ?_⟩
  rw [utf8_cont _ a b hst.1 hb (by norm_num; omega)]
  have hnext : utf8_data.getD (256 + (if a = 0 then 4 else if a = 13 then 5 else 3) * 16
      + utf8_data.getD (0x80 + b) 0) 0 = 2 := by
    split_ifs with e0 e13
    · exact tb.2.2.2.1 (h0 e0)
    · exact tb.2.2.2.2.1 (h13 e13)
    · exact tb.2.1
  rw [hnext]
  dsimp only
  refine ⟨by decide, by decide, ?_⟩
  rw [utf8_cont 2 _ c (by decide) hc (by norm_num; omega), tc.1]

theorem decodes_four (cp a b c d : Nat) (ha : a < 5) (hb : b < 64) (hc : c < 64) (hd : d < 64)
    (h0 : a = 0 → 16 ≤ b) (h4 : a = 4 → b < 16) :
    Decodes decode_utf8 UTF8_ACCEPT cp [0xF0 + a, 0x80 + b, 0x80 + c, 0x80 + d]
      (((a * 64 + b) * 64 + c) * 64 + d) := by
  have tb := utf8_continuation_table b hb
  have tc := utf8_continuation_table c hc
  have td := utf8_continuation_table d hd
  simp only [Decodes, utf8_lead4 cp a ha]
  have hst : (if a = 0 then 6 else if a = 4 then 8 else 7) ≠ UTF8_ACCEPT ∧
      (if a = 0 then 6 else if a = 4 then 8 else 7) ≠ UTF8_REJECT := by
    split_ifs <;> decide
  refine ⟨hst.1, hst.2, ?_⟩
  rw [utf8_cont _ a b hst.1 hb (by norm_num; omega)]
  have hnext : utf8_data.getD (256 + (if a = 0 then 6 else if a = 4 then 8 else 7) * 16
      + utf8_data.getD (0x80 + b) 0) 0 = 3 := by
    split_ifs with e0 e4
    · exact tb.2.2.2.2.2.1 (h0 e0)
    · exact tb.2.2.2.2.2.2 (h4 e4)
    · exact tb.2.2.1
  rw [hnext]
  dsimp only
  refine ⟨by decide, by decide, ?_⟩
  rw [utf8_cont 3 _ c (by decide) hc (by norm_num; omega), tc.2.1]
  dsimp only
  refine ⟨by decide, by decide, ?_⟩
  rw [utf8_cont 2 _ d (by decide) hd (by norm_num; omega), td.1]

/-- The table-driven decoder reads the encoding of every Unicode scalar value. -/
theorem decode_utf8_reads_utf8 : Utf8Decoder decode_utf8 := by
  intro cp c hc
  unfold utf8_encode
  unfold IsScalar at hc
  split_ifs with h1 h2 h3
  · exact decode_utf8_ascii cp c h1
  · have := decodes_two cp (c / 64) (c % 64) (by omega) (by omega) (by omega)
    rwa [Nat.div_add_mod' c 64] at this
  · have := decodes_three cp (c / 4096) (c / 64 % 64) (c % 64) (by omega) (by omega) (by omega)
      (by omega) (by omega)
    have e : (c / 4096 * 64 + c / 64 % 64) * 64 + c % 64 = c := by omega
    rwa [e] at this
  · have := decodes_four cp (c / 262144) (c / 4096 % 64) (c / 64 % 64) (c % 64) (by omega)
      (by omega) (by omega) (by omega) (by omega) (by omega)
    have e : ((c / 262144 * 64 + c / 4096 % 64) * 64 + c / 64 % 64) * 64 + c % 64 = c := by omega
    rwa [e] at this

/-! ### Runs over encoded codepoints -/

theorem feed_decodes (decode : Decoder) (c : Nat) (rest : List Nat) :
    ∀ (bs : List Nat) (s : Screen) (cp : Nat), Decodes decode s.utf8_state cp bs c →
      feed decode s cp (bs ++ rest)
        = ((feed decode (accept_codepoint { s with utf8_state := UTF8_ACCEPT } c).1 c rest).1,
            (accept_codepoint { s with utf8_state := UTF8_ACCEPT } c).2 ++
              (feed decode (accept_codepoint { s with utf8_state := UTF8_ACCEPT } c).1 c rest).2) := by
  intro bs
  induction bs with
  | nil => intro s cp h; exact absurd h (by simp [Decodes])
  | cons b tl ih =>
    intro s cp h
    cases tl with
    | nil =>
      simp only [Decodes] at h
      show feed decode s cp (b :: rest) = _
      simp only [feed, h, if_true]
    | cons b2 tl2 =>
      simp only [Decodes] at h
      obtain ⟨hA, hR, hD⟩ := h
      have := ih { s with utf8_state := (decode s.utf8_state cp b).1 }
        (decode s.utf8_state cp b).2 hD
      simp only [List.cons_append, feed, hA, hR, if_false] at this ⊢
      exact this

theorem feed_encoded (decode : Decoder) (hdec : Utf8Decoder decode) :
    ∀ (cps : List Nat) (s : Screen) (cp : Nat), s.utf8_state = UTF8_ACCEPT →
      (∀ c ∈ cps, IsScalar c) → feed decode s cp (utf8_encode_all cps) = accept_codepoints s cps := by
  intro cps
  induction cps with
  | nil => intro s cp _ _; rfl
  | cons c rest ih =>
    intro s cp hs hsc
    have hd := hdec cp c (hsc c (List.mem_cons_self _ _))
    rw [← hs] at hd
    simp only [utf8_encode_all, accept_codepoints]
    rw [feed_decodes decode c (utf8_encode_all rest) (utf8_encode c) s cp hd,
      set_utf8_state_self s UTF8_ACCEPT hs,
      ih _ c ((accept_codepoint_utf8_state s c).trans hs)
        (fun x hx => hsc x (List.mem_cons_of_mem _ hx))]

theorem _parse_bytes_encoded (decode : Decoder) (hdec : Utf8Decoder decode) (s : Screen)
    (cps : List Nat) (hs : s.utf8_state = UTF8_ACCEPT) (hsc : ∀ c ∈ cps, IsScalar c)
    (hlen : (utf8_encode_all cps).length < 2 ^ 32) :
    _parse_bytes decode s (utf8_encode_all cps) = some (accept_codepoints s cps) := by
  rw [_parse_bytes_eq_feed decode s _ hlen, feed_encoded decode hdec cps s 0 hs hsc]

theorem utf8_encode_all_append (a b : List Nat) :
    utf8_encode_all (a ++ b) = utf8_encode_all a ++ utf8_encode_all b := by
  induction a with
  | nil => rfl
  | cons c rest ih => simp [utf8_encode_all, ih, List.append_assoc]

theorem accept_codepoints_cons (s : Screen) (c : Nat) (cs : List Nat) :
    accept_codepoints s (c :: cs)
      = ((accept_codepoints (accept_codepoint s c).1 cs).1,
          (accept_codepoint s c).2 ++ (accept_codepoints (accept_codepoint s c).1 cs).2) := rfl

theorem accept_codepoints_nil (s : Screen) : accept_codepoints s [] = (s, []) := rfl

/-- OSC, a payload that leaves room for one more byte, then BEL. -/
theorem accept_codepoints_osc_bel (s : Screen) (p : List Nat) (hs : s.parser_state = 0)
    (hp : ∀ c ∈ p, OscPayload c) (hfit : p.length < PARSER_BUF_SZ s) :
    ∃ t, accept_codepoints s (OSC :: p ++ [BEL]) = (t, [Op.dispatch_osc p.length]) ∧
      t.parser_state = 0 ∧ t.parser_buf_pos = 0 := by
  have h1 : accept_codepoint s OSC = (SET_STATE s OSC, []) := by
    simp [accept_codepoint, handle_normal_mode_char, hs]
  obtain ⟨t, ht, a1, a2, a3, a4⟩ := accept_codepoints_osc_payload p (SET_STATE s OSC) rfl hp
    (by simpa [SET_STATE, PARSER_BUF_SZ] using hfit)
  have a2' : t.parser_buf_pos = p.length := by simpa [SET_STATE] using a2
  have h3 : accept_codepoint t BEL = (SET_STATE t 0, [Op.dispatch_osc p.length]) := by
    simp [accept_codepoint, a1, accumulate_osc, dispatch_osc, SET_STATE, a2']
  refine ⟨SET_STATE t 0, ?_, rfl, rfl⟩
  rw [List.cons_append, accept_codepoints_cons, h1, accept_codepoints_append, ht,
    accept_codepoints_cons, h3, accept_codepoints_nil]
  rfl

theorem accept_codepoint_osc_esc_st (u : Screen) (hu : u.parser_state = OSC)
    (hpos : 0 < u.parser_buf_pos) (hesc : buf_read u (u.parser_buf_pos - 1) = ESC) :
    accept_codepoint u 0x5c = (SET_STATE u 0, [Op.dispatch_osc (u.parser_buf_pos - 1)]) := by
  have hacc : accumulate_osc u 0x5c
      = (true, { u with parser_buf_pos := u.parser_buf_pos - 1 }, []) := by
    unfold accumulate_osc
    rw [if_neg (by decide), if_pos rfl, if_pos ⟨hpos, hesc⟩]
  simp [accept_codepoint, hu, hacc, dispatch_osc, SET_STATE]

/-- OSC, a payload that leaves room for two more bytes, then ESC backslash. -/
theorem accept_codepoints_osc_esc_st (s : Screen) (p : List Nat) (hs : s.parser_state = 0)
    (hp : ∀ c ∈ p, OscPayload c) (hfit : p.length + 1 < PARSER_BUF_SZ s) :
    ∃ t, accept_codepoints s (OSC :: p ++ [ESC, 0x5c]) = (t, [Op.dispatch_osc p.length]) ∧
      t.parser_state = 0 ∧ t.parser_buf_pos = 0 := by
  have h1 : accept_codepoint s OSC = (SET_STATE s OSC, []) := by
    simp [accept_codepoint, handle_normal_mode_char, hs]
  obtain ⟨t, ht, a1, a2, a3, a4⟩ := accept_codepoints_osc_payload p (SET_STATE s OSC) rfl hp
    (by simp only [SET_STATE, PARSER_BUF_SZ] at hfit ⊢; omega)
  have a2' : t.parser_buf_pos = p.length := by simpa [SET_STATE] using a2
  have a3' : PARSER_BUF_SZ t = PARSER_BUF_SZ s := by simpa [SET_STATE, PARSER_BUF_SZ] using a3
  have hroom : t.parser_buf_pos + 1 < PARSER_BUF_SZ t := by rw [a2', a3']; exact hfit
  have h3 := accept_codepoint_osc_payload t ESC a1 (by decide) hroom
  have hr := buf_read_set_self t (parser_buf_cell ESC) (by omega)
  have hcell : parser_buf_cell ESC = ESC := by decide
  obtain ⟨u, hu3, hupos, huesc, hustate⟩ : ∃ u, accept_codepoint t ESC = (u, []) ∧
      u.parser_buf_pos = p.length + 1 ∧ buf_read u p.length = ESC ∧ u.parser_state = OSC :=
    ⟨_, h3, by simp [a2'], by rw [← a2', ← hcell]; exact hr, a1⟩
  have h4 := accept_codepoint_osc_esc_st u hustate (by omega)
    (by rw [hupos, Nat.add_sub_cancel]; exact huesc)
  rw [hupos, Nat.add_sub_cancel] at h4
  refine ⟨SET_STATE u 0, ?_, rfl, rfl⟩
  rw [List.cons_append, accept_codepoints_cons, h1, accept_codepoints_append, ht,
    accept_codepoints_cons, hu3, accept_codepoints_cons, h4, accept_codepoints_nil]
  rfl

theorem utf8_encode_length_le (c : Nat) : (utf8_encode c).length ≤ 4 := by
  unfold utf8_encode
  split_ifs <;> simp

theorem utf8_encode_all_length_le (cs : List Nat) :
    (utf8_encode_all cs).length ≤ 4 * cs.length := by
  induction cs with
  | nil => simp [utf8_encode_all]
  | cons c rest ih =>
    have := utf8_encode_length_le c
    simp only [utf8_encode_all, List.length_append, List.length_cons]
    omega

/-! ### The Escape handler at position 0 and 1 -/

theorem handle_esc_mode_char_selector (s : Screen) (c : Nat) (hpos : s.parser_buf_pos = 0)
    (hc : CharsetSelector c) :
    handle_esc_mode_char s c
      = ({ (buf_write s 0 c).1 with parser_buf_pos := 1 }, (buf_write s 0 c).2) := by
  unfold CharsetSelector at hc
  rcases hc with h | h | h | h | h | h | h | h | h <;> subst h <;>
    simp [handle_esc_mode_char, hpos]

theorem handle_esc_mode_char_unknown (s : Screen) (c : Nat) (hpos : s.parser_buf_pos = 0)
    (hf : ¬EscFinal c) (hc : ¬CharsetSelector c) :
    handle_esc_mode_char s c = (SET_STATE s 0, [Op.report_error (ParseError.unknown_esc c)]) := by
  unfold EscFinal at hf
  unfold CharsetSelector at hc
  simp only [not_or] at hf
  obtain ⟨f1, f2, f3, f4, f5, f6, f7, f8, f9, f10, f11, f12⟩ := hf
  unfold handle_esc_mode_char
  rw [if_pos hpos, if_neg f1, if_neg f2, if_neg f3, if_neg f4, if_neg f5, if_neg f6, if_neg f7,
    if_neg f8, if_neg f9, if_neg f10, if_neg f11, if_neg f12, if_neg hc]

theorem handle_esc_mode_char_final (s : Screen) (c : Nat) (hpos : s.parser_buf_pos = 0)
    (hf : EscFinal c) :
    (handle_esc_mode_char s c).1.parser_state ≠ ESC ∧
      (handle_esc_mode_char s c).1.parser_buf_pos = 0 := by
  unfold EscFinal at hf
  rcases hf with h | h | h | h | h | h | h | h | h | h | h | h <;> subst h <;>
    simp [handle_esc_mode_char, hpos, SET_STATE]

theorem handle_esc_mode_char_second (s : Screen) (c : Nat) (hpos : s.parser_buf_pos ≠ 0) :
    handle_esc_mode_char s c
      = (SET_STATE s 0,
          if buf_read s 0 = 0x25 ∧ c = 0x47 then []
          else [Op.report_error
            (ParseError.unhandled_charset (buf_read s 0) (buf_read s 1))]) := by
  unfold handle_esc_mode_char
  rw [if_neg hpos]
  split_ifs <;> rfl

theorem buf_write_parser_state (s : Screen) (i c : Nat) :
    (buf_write s i c).1.parser_state = s.parser_state := by
  unfold buf_write
  split_ifs <;> rfl

theorem accept_codepoint_esc (s : Screen) (c : Nat) (h : s.parser_state = ESC) :
    accept_codepoint s c = handle_esc_mode_char s c := by
  simp [accept_codepoint, h]

theorem accept_codepoint_default (s : Screen) (c : Nat) (h1 : s.parser_state ≠ ESC)
    (h2 : s.parser_state ≠ OSC) (h3 : s.parser_state ≠ DCS) :
    accept_codepoint s c = handle_normal_mode_char s c := by
  unfold accept_codepoint
  rw [if_neg h1, if_neg h2, if_neg h3]

theorem charset_selector_lt (c : Nat) (h : CharsetSelector c) : c < 0x80 := by
  unfold CharsetSelector at h
  omega

/-- ESC, a charset selector and one more codepoint, from Normal mode. -/
theorem accept_codepoints_esc_selector (s : Screen) (sel c : Nat) (hs : s.parser_state = 0)
    (hcap : 1 ≤ PARSER_BUF_SZ s) (hsel : CharsetSelector sel) :
    accept_codepoints s [ESC, sel, c]
      = ({ s with parser_state := 0, parser_buf_pos := 0, parser_buf := s.parser_buf.set 0 sel },
          if sel = 0x25 ∧ c = 0x47 then []
          else [Op.report_error (ParseError.unhandled_charset sel (buf_read s 1))]) := by
  have h1 : accept_codepoint s ESC = (SET_STATE s ESC, []) := by
    simp [accept_codepoint, handle_normal_mode_char, hs]
  have hcell : parser_buf_cell sel = sel := by
    have := charset_selector_lt sel hsel
    simp only [parser_buf_cell]
    omega
  have hlen : 0 < s.parser_buf.length := hcap
  have h2 : accept_codepoint (SET_STATE s ESC) sel
      = ({ s with parser_state := ESC, parser_buf_pos := 1,
                  parser_buf := s.parser_buf.set 0 sel }, []) := by
    rw [accept_codepoint_esc _ _ rfl, handle_esc_mode_char_selector _ _ rfl hsel]
    simp [buf_write, SET_STATE, PARSER_BUF_SZ, hlen, hcell]
  have hr0 : buf_read { s with parser_state := ESC, parser_buf_pos := 1,
                                parser_buf := s.parser_buf.set 0 sel } 0 = sel := by
    simp [buf_read, List.getD_eq_getElem?_getD, hlen]
  have hr1 : buf_read { s with parser_state := ESC, parser_buf_pos := 1,
                                parser_buf := s.parser_buf.set 0 sel } 1 = buf_read s 1 := by
    simp [buf_read, List.getD_eq_getElem?_getD, List.getElem?_set_ne]
  have h3 : accept_codepoint { s with parser_state := ESC, parser_buf_pos := 1,
                                       parser_buf := s.parser_buf.set 0 sel } c
      = ({ s with parser_state := 0, parser_buf_pos := 0, parser_buf := s.parser_buf.set 0 sel },
          if sel = 0x25 ∧ c = 0x47 then []
          else [Op.report_error (ParseError.unhandled_charset sel (buf_read s 1))]) := by
    rw [accept_codepoint_esc _ _ rfl, handle_esc_mode_char_second _ _ (by simp), hr0, hr1]
    rfl
  rw [accept_codepoints_cons, h1, accept_codepoints_cons, h2, accept_codepoints_cons, h3,
    accept_codepoints_nil]
  simp

/-! ### DCS accumulation, case by case -/

theorem accumulate_dcs_st (s : Screen) : accumulate_dcs s ST = (true, s, []) := by
  simp [accumulate_dcs]

theorem accumulate_dcs_nul_del (s : Screen) (c : Nat) (hc : c = NUL ∨ c = DEL) :
    accumulate_dcs s c = (false, s, []) := by
  rcases hc with h | h <;> subst h <;> simp [accumulate_dcs]

theorem accumulate_dcs_non_printable (s : Screen) (c : Nat) (h1 : c ≠ ST) (h2 : c ≠ NUL)
    (h3 : c ≠ DEL) (h4 : c ≠ ESC) (h5 : ¬(0x20 ≤ c ∧ c ≤ 0x7E)) :
    accumulate_dcs s c = (false, s, [Op.report_error (ParseError.dcs_non_printable c)]) := by
  have e2 : ¬(c = NUL ∨ c = DEL) := by rintro (h | h) <;> contradiction
  have e3 : ¬(c = ESC ∨ (32 ≤ c ∧ c ≤ 126)) := by rintro (h | h) <;> contradiction
  unfold accumulate_dcs
  rw [if_neg h1, if_neg e2, if_neg e3]

theorem accumulate_dcs_append (s : Screen) (c : Nat) (hc : c = ESC ∨ (0x20 ≤ c ∧ c ≤ 0x7E))
    (hesc : NoEscLast s) (hroom : s.parser_buf_pos + 1 < PARSER_BUF_SZ s) :
    accumulate_dcs s c
      = (false, { s with parser_buf := s.parser_buf.set s.parser_buf_pos (parser_buf_cell c),
                         parser_buf_pos := s.parser_buf_pos + 1 }, []) := by
  have e1 : c ≠ ST := by simp only [ST, ESC] at hc ⊢; omega
  have e2 : ¬(c = NUL ∨ c = DEL) := by simp only [NUL, DEL, ESC] at hc ⊢; omega
  have e5 : ¬(s.parser_buf_pos ≥ PARSER_BUF_SZ s - 1) := by omega
  have e6 : s.parser_buf_pos < PARSER_BUF_SZ s := by omega
  unfold accumulate_dcs
  rw [if_neg e1, if_neg e2, if_pos hc, if_neg hesc, if_neg e5]
  simp [buf_write, e6]

/-- In DCS, a cycle whose accumulation does not terminate and does not re-enter
Escape mode is the accumulation alone. -/
theorem accept_codepoint_dcs_continue (s t : Screen) (c : Nat) (ops : List Op)
    (hs : s.parser_state = DCS) (ha : accumulate_dcs s c = (false, t, ops))
    (ht : t.parser_state ≠ ESC) : accept_codepoint s c = (t, ops) := by
  simp [accept_codepoint, hs, ha, ht]

/-! ### Rejected bytes -/

set_option maxRecDepth 8192 in
theorem utf8_lead_table : ∀ L < 0xF5, 0xC2 ≤ L →
    utf8_data.getD (256 + utf8_data.getD L 0) 0 ≠ UTF8_ACCEPT ∧
      utf8_data.getD (256 + utf8_data.getD L 0) 0 ≠ UTF8_REJECT ∧
      utf8_data.getD (256 + utf8_data.getD (256 + utf8_data.getD L 0) 0 * 16 + 0) 0
        = UTF8_REJECT := by
  decide

theorem decode_utf8_lead_bytes : LeadByteDecoder decode_utf8 := by
  intro cp L h1 h2
  have t := utf8_lead_table L (by omega) h1
  rw [decode_utf8_clean]
  refine ⟨t.1, t.2.1, ?_⟩
  intro b hb
  have hcls : utf8_data.getD b 0 = 0 := by
    have key : ∀ x < 0x80, utf8_data.getD x 0 = 0 := by decide
    exact key b hb
  simp only [decode_utf8, hcls]
  exact t.2.2

theorem _parse_bytes_rejected_clean (decode : Decoder) (s : Screen) (b : Nat)
    (hutf : s.utf8_state = UTF8_ACCEPT) (hrej : (decode UTF8_ACCEPT 0 b).1 = UTF8_REJECT) :
    _parse_bytes decode s [b] = some (s, []) := by
  rw [_parse_bytes_eq_feed decode s [b] (by simp)]
  have hs := set_utf8_state_self s UTF8_ACCEPT hutf
  simp only [feed, hutf, hrej, ne_eq, not_true_eq_false, if_false, if_true, hs]
  simp [hs]

theorem parse_loop_reoffer (decode : Decoder) (buf : List Nat) (fuel : Nat) (u : Screen)
    (prev cp i : Nat) (hi : i < buf.length) (hlen : buf.length < 2 ^ 32)
    (hprev : prev ≠ UTF8_ACCEPT)
    (hrej : (decode u.utf8_state cp (buf.getD i 0)).1 = UTF8_REJECT) :
    parse_loop decode buf (fuel + 1) u prev cp i
      = parse_loop decode buf fuel { u with utf8_state := UTF8_ACCEPT } UTF8_ACCEPT
          (decode u.utf8_state cp (buf.getD i 0)).2 i := by
  simp only [parse_loop, hi, if_true, hrej, ne_eq, hprev, not_false_eq_true]
  rw [index_wrap_back i (by omega), if_neg (by decide)]

theorem feed_lead_then_ascii (decode : Decoder) (hdec : AsciiDecoder decode)
    (hlead : LeadByteDecoder decode) (s : Screen) (L b : Nat)
    (hutf : s.utf8_state = UTF8_ACCEPT) (hL : 0xC2 ≤ L ∧ L ≤ 0xF4) (hb : b < 0x80) :
    feed decode s 0 [L, b] = accept_codepoint s b := by
  obtain ⟨l1, l2, l3⟩ := hlead 0 L hL.1 hL.2
  have hr := l3 b hb
  have ha := hdec (decode (decode UTF8_ACCEPT 0 L).1 (decode UTF8_ACCEPT 0 L).2 b).2 b hb
  have hs := set_utf8_state_self s UTF8_ACCEPT hutf
  simp only [feed, hutf, l1, l2, if_false, hr, ne_eq, not_false_eq_true, if_true, ha, hs]
  simp [hs]

/-! ### Where error reports leave the parser -/

theorem handle_esc_mode_char_error_state (s : Screen) (c : Nat) :
    ∀ e, Op.report_error e ∈ (handle_esc_mode_char s c).2 →
      (handle_esc_mode_char s c).1.parser_state = 0 := by
  unfold handle_esc_mode_char buf_write
  repeat' (apply ite_cases (P := fun r : Screen × List Op =>
            ∀ e, Op.report_error e ∈ r.2 → r.1.parser_state = 0) <;> intro _)
  all_goals simp [SET_STATE]

theorem handle_normal_mode_char_error_state (s : Screen) (c : Nat) :
    ∀ e, Op.report_error e ∈ (handle_normal_mode_char s c).2 →
      (handle_normal_mode_char s c).1 = s ∧ (c = SO ∨ c = SI) := by
  unfold handle_normal_mode_char
  repeat' (apply ite_cases (P := fun r : Screen × List Op =>
            ∀ e, Op.report_error e ∈ r.2 → r.1 = s ∧ (c = SO ∨ c = SI)) <;> intro hx)
  all_goals intro e he
  all_goals first
    | (simp at he; done)
    | exact ⟨rfl, Or.inl hx⟩
    | exact ⟨rfl, Or.inr hx⟩

theorem accumulate_osc_report_terminates (s : Screen) (c : Nat) :
    OscReportTerminates (accumulate_osc s c) := by
  unfold accumulate_osc buf_write
  repeat' (apply ite_cases <;> intro _)
  all_goals simp [OscReportTerminates]
  all_goals split_ifs <;> simp

theorem accept_codepoint_osc_error_state (s : Screen) (c : Nat) (hs : s.parser_state = OSC) :
    ∀ e, Op.report_error e ∈ (accept_codepoint s c).2 →
      (accept_codepoint s c).1.parser_state = 0 := by
  intro e he
  have hne : s.parser_state ≠ ESC := by rw [hs]; decide
  unfold accept_codepoint at he ⊢
  rw [if_neg hne, if_pos hs] at he ⊢
  by_cases ht : (accumulate_osc s c).1 = true
  · simp [ht, SET_STATE]
  · have hf : (accumulate_osc s c).1 = false := by simpa using ht
    simp only [hf] at he
    exact absurd he (accumulate_osc_report_terminates s c hf e)

theorem accept_codepoint_dcs_terminated (s : Screen) (c : Nat) (hs : s.parser_state = DCS)
    (ht : (accumulate_dcs s c).1 = true) : (accept_codepoint s c).1.parser_state = 0 := by
  simp [accept_codepoint, hs, ht, SET_STATE]

theorem accumulate_dcs_reenter (s : Screen) (c : Nat) (hc : c = ESC ∨ (0x20 ≤ c ∧ c ≤ 0x7E))
    (hbs : c ≠ 0x5c) (hesc : s.parser_buf_pos > 0 ∧ buf_read s (s.parser_buf_pos - 1) = ESC) :
    accumulate_dcs s c
      = (false, SET_STATE s ESC, [Op.report_error (ParseError.dcs_non_printable ESC)]) := by
  have e1 : c ≠ ST := by simp only [ST, ESC] at hc ⊢; omega
  have e2 : ¬(c = NUL ∨ c = DEL) := by simp only [NUL, DEL, ESC] at hc ⊢; omega
  unfold accumulate_dcs
  rw [if_neg e1, if_neg e2, if_pos hc, if_pos hesc, if_neg hbs]

/-! ### read_bytes -/

theorem read_bytes_retries (decode : Decoder) (s : Screen) (outcomes : List ReadOutcome) :
    ∀ k : Nat, read_bytes decode s (List.replicate k (ReadOutcome.error EINTR) ++ outcomes)
      = read_bytes decode s outcomes := by
  intro k
  induction k with
  | zero => rfl
  | succ k ih =>
    rw [List.replicate_succ, List.cons_append, read_bytes, if_pos rfl, ih]

/-! ### Chunking -/

theorem decode_utf8_clean_start : CleanStartDecoder decode_utf8 := by
  intro cp cp2 b
  rw [decode_utf8_clean, decode_utf8_clean]

theorem feed_clean_accumulator (decode : Decoder) (hdec : CleanStartDecoder decode)
    (s : Screen) (cp cp2 : Nat) (bs : List Nat) (hs : s.utf8_state = UTF8_ACCEPT) :
    feed decode s cp bs = feed decode s cp2 bs := by
  cases bs with
  | nil => rfl
  | cons x rest =>
    simp only [feed, hs, hdec cp cp2 x]

/-- One byte of a run: the rest of the run starts from some state and accumulator,
after some operations, and these do not depend on the rest of the input. -/
theorem feed_cons_step (decode : Decoder) (s : Screen) (cp x : Nat) :
    ∃ (s2 : Screen) (cp2 : Nat) (ops : List Op), ∀ tl : List Nat,
      feed decode s cp (x :: tl)
        = ((feed decode s2 cp2 tl).1, ops ++ (feed decode s2 cp2 tl).2) := by
  have hne : ¬(UTF8_REJECT = UTF8_ACCEPT) := by decide
  by_cases hA : (decode s.utf8_state cp x).1 = UTF8_ACCEPT
  · exact ⟨(accept_codepoint { s with utf8_state := UTF8_ACCEPT } (decode s.utf8_state cp x).2).1,
      (decode s.utf8_state cp x).2,
      (accept_codepoint { s with utf8_state := UTF8_ACCEPT } (decode s.utf8_state cp x).2).2,
      fun tl => by simp only [feed, hA, if_true]⟩
  by_cases hR : (decode s.utf8_state cp x).1 = UTF8_REJECT
  · by_cases hP : s.utf8_state ≠ UTF8_ACCEPT
    · by_cases hA2 : (decode UTF8_ACCEPT (decode s.utf8_state cp x).2 x).1 = UTF8_ACCEPT
      · exact ⟨(accept_codepoint { s with utf8_state := UTF8_ACCEPT }
            (decode UTF8_ACCEPT (decode s.utf8_state cp x).2 x).2).1,
          (decode UTF8_ACCEPT (decode s.utf8_state cp x).2 x).2,
          (accept_codepoint { s with utf8_state := UTF8_ACCEPT }
            (decode UTF8_ACCEPT (decode s.utf8_state cp x).2 x).2).2,
          fun tl => by simp only [feed, hR, hne, hP, hA2, if_true, if_false, ne_eq, not_false_eq_true]⟩
      by_cases hR2 : (decode UTF8_ACCEPT (decode s.utf8_state cp x).2 x).1 = UTF8_REJECT
      · exact ⟨{ s with utf8_state := UTF8_ACCEPT },
          (decode UTF8_ACCEPT (decode s.utf8_state cp x).2 x).2, [], fun tl => by
            simp only [feed, hR, hne, hP, hR2, if_true, if_false, ne_eq, not_false_eq_true,
              List.nil_append]⟩
      · exact ⟨{ s with utf8_state := (decode UTF8_ACCEPT (decode s.utf8_state cp x).2 x).1 },
          (decode UTF8_ACCEPT (decode s.utf8_state cp x).2 x).2, [], fun tl => by
            simp only [feed, hR, hne, hP, hA2, hR2, if_true, if_false, ne_eq, not_false_eq_true,
              List.nil_append]⟩
    · have hP2 : s.utf8_state = UTF8_ACCEPT := by simpa using hP
      have hR3 : (decode UTF8_ACCEPT cp x).1 = UTF8_REJECT := by rw [← hP2]; exact hR
      exact ⟨{ s with utf8_state := UTF8_ACCEPT }, (decode UTF8_ACCEPT cp x).2, [],
        fun tl => by
          simp only [feed, hP2, hR3, hne, ne_eq, not_true_eq_false, if_true, if_false,
            List.nil_append]⟩
  · exact ⟨{ s with utf8_state := (decode s.utf8_state cp x).1 }, (decode s.utf8_state cp x).2,
      [], fun tl => by simp only [feed, hA, hR, if_false, List.nil_append]⟩

theorem feed_append (decode : Decoder) (hdec : CleanStartDecoder decode) (b : List Nat)
    (cp2 : Nat) :
    ∀ (a : List Nat) (s : Screen) (cp : Nat),
      (feed decode s cp a).1.utf8_state = UTF8_ACCEPT →
      feed decode s cp (a ++ b)
        = ((feed decode (feed decode s cp a).1 cp2 b).1,
            (feed decode s cp a).2 ++ (feed decode (feed decode s cp a).1 cp2 b).2) := by
  intro a
  induction a with
  | nil =>
    intro s cp h
    simp only [feed] at h
    simp only [List.nil_append, feed, feed_clean_accumulator decode hdec s cp cp2 b h]
  | cons x rest ih =>
    intro s cp h
    obtain ⟨s2, cp3, ops, key⟩ := feed_cons_step decode s cp x
    rw [key rest] at h
    rw [List.cons_append, key (rest ++ b), key rest, ih s2 cp3 h, List.append_assoc]

/-! ### The calls of the decoder -/

theorem parse_loop_offers_erase (decode : Decoder) (buf : List Nat) :
    ∀ (fuel : Nat) (s : Screen) (prev cp i : Nat),
      (parse_loop_offers decode buf fuel s prev cp i).map (fun r => (r.1, r.2.1))
        = parse_loop decode buf fuel s prev cp i := by
  intro fuel
  induction fuel with
  | zero => intro s prev cp i; rfl
  | succ fuel ih =>
    intro s prev cp i
    simp only [parse_loop_offers, parse_loop]
    split_ifs
    · rw [← ih]
      cases parse_loop_offers decode buf fuel _ _ _ _ <;> rfl
    · rw [← ih]
      cases parse_loop_offers decode buf fuel _ _ _ _ <;> rfl
    · rw [← ih]
      cases parse_loop_offers decode buf fuel _ _ _ _ <;> rfl
    · rw [← ih]
      cases parse_loop_offers decode buf fuel _ _ _ _ <;> rfl
    · rfl

theorem offer_groups_cons (buf : List Nat) (i : Nat) (g : List Offer)
    (groups : List (List Offer)) (hi : i < buf.length) (hg : ByteOffers buf i g)
    (hg2 : g.length ≤ 2) (h : OfferGroups buf (i + 1) groups) :
    OfferGroups buf i (g :: groups) := by
  obtain ⟨hl, hk, hb⟩ := h
  refine ⟨by rw [List.length_cons, hl]; omega, ?_, ?_⟩
  · intro k hk2
    cases k with
    | zero => simpa using hg
    | succ k =>
      rw [List.getD_cons_succ]
      have := hk k (by omega)
      have e : i + 1 + k = i + (k + 1) := by omega
      rwa [e] at this
  · rw [List.flatten_cons, List.length_append]
    omega

/-- One iteration that does not step the index back: it makes one offer and goes on
at the next index. -/
theorem parse_loop_offers_once (decode : Decoder) (buf : List Nat) (hlen : buf.length < 2 ^ 32)
    (fuel : Nat) (u : Screen) (prev cp i : Nat) (hlt : i < buf.length)
    (hno : ¬((decode u.utf8_state cp (buf.getD i 0)).1 = UTF8_REJECT ∧ prev ≠ UTF8_ACCEPT))
    (H : ∀ (s2 : Screen) (cp2 : Nat), ∃ (t : Screen) (ops : List Op)
      (groups : List (List Offer)),
      parse_loop_offers decode buf fuel s2 s2.utf8_state cp2 (i + 1)
        = some (t, ops, groups.flatten) ∧ OfferGroups buf (i + 1) groups) :
    ∃ (t : Screen) (ops : List Op) (groups : List (List Offer)),
      parse_loop_offers decode buf (fuel + 1) u prev cp i
        = some (t, ops,
            ⟨i, buf.getD i 0, u.utf8_state, (decode u.utf8_state cp (buf.getD i 0)).1⟩
              :: groups.flatten) ∧
      OfferGroups buf (i + 1) groups := by
  have hsucc : (i + 1) % 2 ^ 32 = i + 1 := index_wrap_succ i (by omega)
  simp only [parse_loop_offers, hlt, if_true, hsucc]
  by_cases hA : (decode u.utf8_state cp (buf.getD i 0)).1 = UTF8_ACCEPT
  · obtain ⟨t, ops, groups, h, hg⟩ := H
      (accept_codepoint { u with utf8_state := UTF8_ACCEPT }
        (decode u.utf8_state cp (buf.getD i 0)).2).1 (decode u.utf8_state cp (buf.getD i 0)).2
    simp only [hA, if_true, h]
    exact ⟨t, _, groups, rfl, hg⟩
  · simp only [hA, if_false]
    by_cases hR : (decode u.utf8_state cp (buf.getD i 0)).1 = UTF8_REJECT
    · have hP : prev = UTF8_ACCEPT := by
        by_contra hP
        exact hno ⟨hR, hP⟩
      obtain ⟨t, ops, groups, h, hg⟩ := H { u with utf8_state := UTF8_ACCEPT }
        (decode u.utf8_state cp (buf.getD i 0)).2
      simp only [hR, if_true, hP, ne_eq, not_true_eq_false, if_false, hsucc, h]
      exact ⟨t, _, groups, rfl, hg⟩
    · obtain ⟨t, ops, groups, h, hg⟩ := H
        { u with utf8_state := (decode u.utf8_state cp (buf.getD i 0)).1 }
        (decode u.utf8_state cp (buf.getD i 0)).2
      simp only [hR, if_false, h]
      exact ⟨t, _, groups, rfl, hg⟩

/-- The calls of the decoder made by a run, grouped by input byte. -/
theorem parse_loop_offers_groups (decode : Decoder) (buf : List Nat)
    (hlen : buf.length < 2 ^ 32) :
    ∀ (fuel : Nat) (s : Screen) (cp i : Nat), i ≤ buf.length →
      2 * (buf.length - i) + 1 ≤ fuel →
      ∃ (t : Screen) (ops : List Op) (groups : List (List Offer)),
        parse_loop_offers decode buf fuel s s.utf8_state cp i = some (t, ops, groups.flatten) ∧
        OfferGroups buf i groups := by
  intro fuel
  induction fuel using Nat.strong_induction_on with
  | _ fuel ih =>
    intro s cp i hi hf
    cases fuel with
    | zero => omega
    | succ fuel =>
      by_cases hlt : i < buf.length
      · by_cases hre : (decode s.utf8_state cp (buf.getD i 0)).1 = UTF8_REJECT ∧
            s.utf8_state ≠ UTF8_ACCEPT
        · -- the byte is rejected from a non-clean state: it is offered again
          cases fuel with
          | zero => omega
          | succ fuel =>
            obtain ⟨t, ops, groups, h, hg⟩ := parse_loop_offers_once decode buf hlen fuel
              { s with utf8_state := UTF8_ACCEPT } UTF8_ACCEPT
              (decode s.utf8_state cp (buf.getD i 0)).2 i hlt (fun h => h.2 rfl)
              (fun s2 cp2 => ih fuel (by omega) s2 cp2 (i + 1) (by omega) (by omega))
            refine ⟨t, ops, [⟨i, buf.getD i 0, s.utf8_state, UTF8_REJECT⟩,
              ⟨i, buf.getD i 0, UTF8_ACCEPT, (decode UTF8_ACCEPT
                (decode s.utf8_state cp (buf.getD i 0)).2 (buf.getD i 0)).1⟩] :: groups, ?_,
              offer_groups_cons buf i _ groups hlt (Or.inr ⟨_, _, hre.2, rfl⟩) (by simp) hg⟩
            rw [parse_loop_offers]
            simp only [hlt, if_true, hre.1, hre.2, ne_eq, not_false_eq_true,
              index_wrap_back i (by omega)]
            rw [if_neg (by decide), h]
            rfl
        · obtain ⟨t, ops, groups, h, hg⟩ := parse_loop_offers_once decode buf hlen fuel s
            s.utf8_state cp i hlt hre
            (fun s2 cp2 => ih fuel (by omega) s2 cp2 (i + 1) (by omega) (by omega))
          refine ⟨t, ops, [⟨i, buf.getD i 0, s.utf8_state,
            (decode s.utf8_state cp (buf.getD i 0)).1⟩] :: groups, h,
            offer_groups_cons buf i _ groups hlt (Or.inl ⟨_, _, rfl, hre⟩) (by simp) hg⟩
      · have : i = buf.length := by omega
        subst this
        refine ⟨s, [], [], ?_, by simp, fun k hk => by omega, by simp⟩
        simp [parse_loop_offers]

/-! ## Claims -/

/-- C1 (evaluation at the failing input).  U+00E9 is encoded as C3 A9.  Fed in one
call the two bytes draw U+00E9; fed as two calls, the first leaves only the
decoder state behind, the second starts with `codepoint = 0` and draws U+0029. -/
theorem C1_split_encoding_draws_wrong_codepoint :
    _parse_bytes decode_utf8 ⟨0, 0, [0, 0], 0⟩ [0xC3, 0xA9]
        = some (⟨0, 0, [0, 0], 0⟩, [Op.screen_draw 0xE9]) ∧
      _parse_bytes decode_utf8 ⟨0, 0, [0, 0], 0⟩ [0xC3] = some (⟨0, 0, [0, 0], 2⟩, []) ∧
      _parse_bytes decode_utf8 ⟨0, 0, [0, 0], 2⟩ [0xA9]
        = some (⟨0, 0, [0, 0], 0⟩, [Op.screen_draw 0x29]) := by
  decide

/-- C2 (evaluation at the failing input).  In OSC with `a` buffered and room left,
a backslash that does not follow a buffered ESC is not appended: `accumulate_osc`
returns true, and the cycle dispatches the payload and returns to Normal. -/
theorem C2_bare_backslash_terminates_osc :
    accumulate_osc ⟨OSC, 1, [0x61, 0, 0, 0], 0⟩ 0x5c = (true, ⟨OSC, 1, [0x61, 0, 0, 0], 0⟩, []) ∧
      accept_codepoint ⟨OSC, 1, [0x61, 0, 0, 0], 0⟩ 0x5c
        = (⟨0, 0, [0x61, 0, 0, 0], 0⟩, [Op.dispatch_osc 1]) := by
  decide

/-- C3.  Whatever the decoder returns, for every input shorter than 2^32 bytes and
every session state whose buffer has at least two cells and whose position is at
most `PARSER_BUF_SZ - 1` (the initial state, at position 0, is one), `_parse_bytes`
returns after each prefix of the input with the position again at most
`PARSER_BUF_SZ - 1`, the array at its size, and no write to the Parse Buffer out of
bounds. -/
theorem C3_parse_buffer_position_bounded (decode : Decoder) (s : Screen) (bs : List Nat)
    (hcap : 2 ≤ PARSER_BUF_SZ s) (hpos : s.parser_buf_pos ≤ PARSER_BUF_SZ s - 1)
    (hlen : bs.length < 2 ^ 32) (k : Nat) :
    ∃ r, _parse_bytes decode s (bs.take k) = some r ∧
      r.1.parser_buf_pos ≤ PARSER_BUF_SZ s - 1 ∧ PARSER_BUF_SZ r.1 = PARSER_BUF_SZ s ∧
      ∀ i, Op.out_of_bounds i ∉ r.2 := by
  have hk : (bs.take k).length < 2 ^ 32 := by
    have := List.length_take_le' k bs
    omega
  obtain ⟨h1, h2, h3⟩ := feed_framed decode (bs.take k) s 0 ⟨hpos, hcap⟩
  refine ⟨_, _parse_bytes_eq_feed decode s (bs.take k) hk, ?_, h2, h3⟩
  rw [← h2]
  exact h1.1

/-- Witness of C3: a four-cell buffer, an OSC whose payload is longer than the
buffer, with the table-driven decoder. -/
theorem C3_parse_buffer_position_bounded_witness :
    ∃ r, _parse_bytes decode_utf8 ⟨0, 0, [0, 0, 0, 0], 0⟩
        ([0x1b, 0x5d, 0x61, 0x62, 0x63, 0x64, 0x65].take 7) = some r ∧
      r.1.parser_buf_pos ≤ PARSER_BUF_SZ ⟨0, 0, [0, 0, 0, 0], 0⟩ - 1 ∧
      PARSER_BUF_SZ r.1 = PARSER_BUF_SZ ⟨0, 0, [0, 0, 0, 0], 0⟩ ∧
      ∀ i, Op.out_of_bounds i ∉ r.2 :=
  C3_parse_buffer_position_bounded decode_utf8 ⟨0, 0, [0, 0, 0, 0], 0⟩
    [0x1b, 0x5d, 0x61, 0x62, 0x63, 0x64, 0x65] (by decide) (by decide) (by decide) 7

/-- C4.  From a freshly entered OSC or DCS state (position 0, clean decoder state),
an input of at least `PARSER_BUF_SZ` printable ASCII bytes other than backslash
(shorter than 2^32 bytes): the first `PARSER_BUF_SZ - 1` bytes are buffered without
any operation; on the whole input `_parse_bytes` emits one "sequence too long"
report followed by one payload dispatch of length `PARSER_BUF_SZ - 1`, both at the
byte that arrives when `PARSER_BUF_SZ - 1` bytes are buffered, then only draws of the
bytes after it, and ends in Normal mode. -/
theorem C4_oversize_payload_truncated (decode : Decoder) (hdec : AsciiDecoder decode)
    (s : Screen) (cs : List Nat) (hmode : s.parser_state = OSC ∨ s.parser_state = DCS)
    (hpos : s.parser_buf_pos = 0) (hutf : s.utf8_state = UTF8_ACCEPT)
    (hcap : 1 ≤ PARSER_BUF_SZ s) (hcs : ∀ c ∈ cs, 0x20 ≤ c ∧ c ≤ 0x7E ∧ c ≠ 0x5c)
    (hlong : PARSER_BUF_SZ s ≤ cs.length) (hlen : cs.length < 2 ^ 32) :
    ∃ t, _parse_bytes decode s (cs.take (PARSER_BUF_SZ s - 1)) = some (t, []) ∧
      t.parser_state = s.parser_state ∧ t.parser_buf_pos = PARSER_BUF_SZ s - 1 ∧
      _parse_bytes decode s cs
        = some ({ t with parser_state := 0, parser_buf_pos := 0 },
            [Op.report_error
                (if s.parser_state = OSC then ParseError.osc_too_long
                  else ParseError.dcs_too_long),
              (if s.parser_state = OSC then Op.dispatch_osc (PARSER_BUF_SZ s - 1)
                else Op.dispatch_dcs (PARSER_BUF_SZ s - 1))]
              ++ (cs.drop (PARSER_BUF_SZ s)).map Op.screen_draw) := by
  have hb : ∀ b ∈ cs, b < 0x80 := fun b hb => by have := hcs b hb; omega
  have hbt : ∀ b ∈ cs.take (PARSER_BUF_SZ s - 1), b < 0x80 := fun b hbm =>
    hb b (List.mem_of_mem_take hbm)
  have hlt : (cs.take (PARSER_BUF_SZ s - 1)).length < 2 ^ 32 := by
    have := List.length_take_le' (PARSER_BUF_SZ s - 1) cs
    omega
  rw [_parse_bytes_ascii decode hdec s _ hutf hbt hlt, _parse_bytes_ascii decode hdec s _ hutf hb hlen]
  rcases hmode with hm | hm
  · obtain ⟨t, h1, h2, h3, h4⟩ := accept_codepoints_osc_too_long s cs hm hpos hcap hcs hlong
    exact ⟨t, by rw [h1], by rw [h2, hm], h3, by rw [h4, if_pos hm, if_pos hm]; rfl⟩
  · have hne : s.parser_state ≠ OSC := by rw [hm]; decide
    obtain ⟨t, h1, h2, h3, h4⟩ := accept_codepoints_dcs_too_long s cs hm hpos hcap hcs hlong
    exact ⟨t, by rw [h1], by rw [h2, hm], h3, by rw [h4, if_neg hne, if_neg hne]; rfl⟩

/-- Witness of C4: a three-cell buffer in OSC and the four bytes "abcd". -/
theorem C4_oversize_payload_truncated_witness :
    ∃ t, _parse_bytes decode_utf8 ⟨OSC, 0, [0, 0, 0], 0⟩ ([0x61, 0x62, 0x63, 0x64].take 2)
        = some (t, []) ∧
      t.parser_state = OSC ∧ t.parser_buf_pos = 2 ∧
      _parse_bytes decode_utf8 ⟨OSC, 0, [0, 0, 0], 0⟩ [0x61, 0x62, 0x63, 0x64]
        = some ({ t with parser_state := 0, parser_buf_pos := 0 },
            [Op.report_error ParseError.osc_too_long, Op.dispatch_osc 2, Op.screen_draw 0x64]) :=
  C4_oversize_payload_truncated decode_utf8 decode_utf8_ascii ⟨OSC, 0, [0, 0, 0], 0⟩
    [0x61, 0x62, 0x63, 0x64] (Or.inl rfl) rfl rfl (by decide) (by decide) (by decide) (by decide)

/-- C5 (counterexample).  With a two-cell buffer the one-codepoint payload `a` fits
(n = 1 = BUF_CAP - 1).  OSC `a` BEL gives the single dispatch of length 1; OSC `a`
ESC backslash finds the buffer full when ESC arrives: it reports "too long",
dispatches, and then draws the backslash in Normal mode. -/
theorem C5_full_buffer_esc_terminator_differs :
    _parse_bytes decode_utf8 ⟨0, 0, [0, 0], 0⟩ (utf8_encode_all (OSC :: [0x61] ++ [BEL]))
        = some (⟨0, 0, [0x61, 0], 0⟩, [Op.dispatch_osc 1]) ∧
      _parse_bytes decode_utf8 ⟨0, 0, [0, 0], 0⟩ (utf8_encode_all (OSC :: [0x61] ++ [ESC, 0x5c]))
        = some (⟨0, 0, [0x61, 0], 0⟩,
            [Op.report_error ParseError.osc_too_long, Op.dispatch_osc 1, Op.screen_draw 0x5c]) := by
  decide

/-- C5 (amended).  For a UTF-8 decoder, a payload `p` of Unicode scalar values that
OSC accumulates (none of ST, BEL, NUL, DEL, backslash) and that leaves room in the
buffer for the ESC of the two-codepoint terminator (`p.length ≤ PARSER_BUF_SZ - 2`),
from Normal with a clean decoder state: the encoded input OSC `p` BEL and the encoded
input OSC `p` ESC backslash both make `_parse_bytes` emit exactly one payload
dispatch, of length `p.length`, and nothing else, and both end in Normal mode. -/
theorem C5_osc_terminators_agree (decode : Decoder) (hdec : Utf8Decoder decode) (s : Screen)
    (p : List Nat) (hstate : s.parser_state = 0) (hutf : s.utf8_state = UTF8_ACCEPT)
    (hp : ∀ c ∈ p, IsScalar c ∧ OscPayload c) (hfit : p.length + 1 < PARSER_BUF_SZ s)
    (hlen : 4 * (p.length + 3) < 2 ^ 32) :
    ∃ t1 t2,
      _parse_bytes decode s (utf8_encode_all (OSC :: p ++ [BEL]))
          = some (t1, [Op.dispatch_osc p.length]) ∧ t1.parser_state = 0 ∧
        _parse_bytes decode s (utf8_encode_all (OSC :: p ++ [ESC, 0x5c]))
          = some (t2, [Op.dispatch_osc p.length]) ∧ t2.parser_state = 0 := by
  have hsc : ∀ (tail : List Nat), (∀ c ∈ tail, IsScalar c) →
      ∀ c ∈ OSC :: p ++ tail, IsScalar c := by
    intro tail htail c hc
    rcases List.mem_cons.1 hc with h | h
    · rw [h]; decide
    · rcases List.mem_append.1 h with h | h
      · exact (hp c h).1
      · exact htail c h
  have hpay : ∀ c ∈ p, OscPayload c := fun c hc => (hp c hc).2
  have hl1 : (utf8_encode_all (OSC :: p ++ [BEL])).length < 2 ^ 32 := by
    have h := utf8_encode_all_length_le (OSC :: p ++ [BEL])
    have e : (OSC :: p ++ [BEL]).length = p.length + 2 := by simp
    rw [e] at h
    omega
  have hl2 : (utf8_encode_all (OSC :: p ++ [ESC, 0x5c])).length < 2 ^ 32 := by
    have h := utf8_encode_all_length_le (OSC :: p ++ [ESC, 0x5c])
    have e : (OSC :: p ++ [ESC, 0x5c]).length = p.length + 3 := by simp
    rw [e] at h
    omega
  obtain ⟨t1, e1, s1, _⟩ := accept_codepoints_osc_bel s p hstate hpay (by omega)
  obtain ⟨t2, e2, s2, _⟩ := accept_codepoints_osc_esc_st s p hstate hpay hfit
  refine ⟨t1, t2, ?_, s1, ?_, s2⟩
  · rw [_parse_bytes_encoded decode hdec s _ hutf
      (hsc [BEL] (by intro c hc; rw [List.mem_singleton.1 hc]; decide)) hl1, e1]
  · rw [_parse_bytes_encoded decode hdec s _ hutf
      (hsc [ESC, 0x5c] (by
        intro c hc
        rcases List.mem_cons.1 hc with h | h
        · rw [h]; decide
        · rw [List.mem_singleton.1 h]; decide)) hl2, e2]

/-- Witness of C5 (amended): a four-cell buffer and the payload `a`, U+00E9, with the
table-driven decoder. -/
theorem C5_osc_terminators_agree_witness :
    ∃ t1 t2,
      _parse_bytes decode_utf8 ⟨0, 0, [0, 0, 0, 0], 0⟩ (utf8_encode_all (OSC :: [0x61, 0xE9] ++ [BEL]))
          = some (t1, [Op.dispatch_osc [0x61, 0xE9].length]) ∧ t1.parser_state = 0 ∧
        _parse_bytes decode_utf8 ⟨0, 0, [0, 0, 0, 0], 0⟩
            (utf8_encode_all (OSC :: [0x61, 0xE9] ++ [ESC, 0x5c]))
          = some (t2, [Op.dispatch_osc [0x61, 0xE9].length]) ∧ t2.parser_state = 0 :=
  C5_osc_terminators_agree decode_utf8 decode_utf8_reads_utf8 ⟨0, 0, [0, 0, 0, 0], 0⟩ [0x61, 0xE9]
    rfl rfl (by decide) (by decide) (by decide)

/-- C6.  In DCS with ESC as the most recently buffered byte, one pipeline cycle on a
printable ASCII codepoint `b` other than backslash reports the malformed DCS, makes
no DCS payload dispatch, and then is exactly the Escape handler run on `b` from
Escape mode at position 0: same operations after the report, same final state.  For
`b = c` this is the report, one reset dispatch and Normal mode. -/
theorem C6_dcs_esc_reenters_escape (s : Screen) (b : Nat) (hstate : s.parser_state = DCS)
    (hpos : 0 < s.parser_buf_pos) (hesc : buf_read s (s.parser_buf_pos - 1) = ESC)
    (hb : 0x20 ≤ b ∧ b ≤ 0x7E) (hbs : b ≠ 0x5c) :
    accept_codepoint s b
        = ((handle_esc_mode_char (SET_STATE s ESC) b).1,
            Op.report_error (ParseError.dcs_non_printable ESC)
              :: (handle_esc_mode_char (SET_STATE s ESC) b).2) ∧
      (∀ n, Op.dispatch_dcs n ∉ (accept_codepoint s b).2) ∧
      accept_codepoint s ESC_RIS
        = (SET_STATE s 0,
            [Op.report_error (ParseError.dcs_non_printable ESC), Op.screen_reset]) := by
  have key : ∀ x, 0x20 ≤ x ∧ x ≤ 0x7E → x ≠ 0x5c → accept_codepoint s x
      = ((handle_esc_mode_char (SET_STATE s ESC) x).1,
          Op.report_error (ParseError.dcs_non_printable ESC)
            :: (handle_esc_mode_char (SET_STATE s ESC) x).2) := by
    intro x hx hxs
    have ha := accumulate_dcs_after_esc s x hpos hesc hx hxs
    simp [accept_codepoint, hstate, ha, SET_STATE]
  refine ⟨key b hb hbs, ?_, ?_⟩
  · intro n hn
    rw [key b hb hbs] at hn
    rcases List.mem_cons.1 hn with h | h
    · cases h
    · exact handle_esc_mode_char_no_dispatch_dcs _ _ n h
  · rw [key ESC_RIS (by decide) (by decide)]
    simp [handle_esc_mode_char, SET_STATE]

/-- Witness of C6: DCS with `q` ESC buffered, then `c`. -/
theorem C6_dcs_esc_reenters_escape_witness :
    accept_codepoint ⟨DCS, 2, [0x71, 0x1b, 0, 0], 0⟩ 0x63
      = (⟨0, 0, [0x71, 0x1b, 0, 0], 0⟩,
          [Op.report_error (ParseError.dcs_non_printable ESC), Op.screen_reset]) :=
  (C6_dcs_esc_reenters_escape ⟨DCS, 2, [0x71, 0x1b, 0, 0], 0⟩ 0x63 rfl (by decide) (by decide)
    (by decide) (by decide)).2.2

/-- C7.  An input of printable ASCII bytes (0x20-0x7E), shorter than 2^32 bytes (the
range of the loop index), parsed from Normal with a clean decoder state by a decoder
that reads ASCII bytes as themselves: `_parse_bytes` returns, the operations are
exactly one draw per byte, in order, each with that byte as codepoint, nothing is
reported, and the session state is the one it started from (still Normal). -/
theorem C7_printable_ascii_one_draw_per_byte (decode : Decoder) (hdec : AsciiDecoder decode)
    (s : Screen) (bs : List Nat) (hstate : s.parser_state = 0)
    (hutf : s.utf8_state = UTF8_ACCEPT) (hbs : ∀ b ∈ bs, 0x20 ≤ b ∧ b ≤ 0x7E)
    (hlen : bs.length < 2 ^ 32) :
    _parse_bytes decode s bs = some (s, bs.map Op.screen_draw) := by
  rw [_parse_bytes_ascii decode hdec s bs hutf (fun b hb => by have := hbs b hb; omega) hlen]
  exact congrArg some (accept_codepoints_printable s hstate bs hbs)

/-- Witness of C7 on the bytes of "Hi!" with the table-driven decoder. -/
theorem C7_printable_ascii_one_draw_per_byte_witness :
    _parse_bytes decode_utf8 ⟨0, 0, [0, 0], 0⟩ [0x48, 0x69, 0x21]
      = some (⟨0, 0, [0, 0], 0⟩, [Op.screen_draw 0x48, Op.screen_draw 0x69, Op.screen_draw 0x21]) :=
  C7_printable_ascii_one_draw_per_byte decode_utf8 decode_utf8_ascii ⟨0, 0, [0, 0], 0⟩
    [0x48, 0x69, 0x21] rfl rfl (by decide) (by decide)

/-- C8.  The dispatch table of `handle_normal_mode_char`, for every screen and
codepoint: each control code performs its one action (one dispatch with the state
unchanged; one error report for SO and SI; the state transition with position 0 and
no dispatch for ESC, CSI, OSC, DCS; nothing for NUL and DEL), every other codepoint
is drawn with the state unchanged, at most one operation is ever emitted, and a
state change never comes with an operation. -/
theorem C8_normal_mode_dispatch_table (s : Screen) (c : Nat) :
    (c = BEL → handle_normal_mode_char s c = (s, [Op.screen_bell])) ∧
    (c = BS → handle_normal_mode_char s c = (s, [Op.screen_backspace])) ∧
    (c = HT → handle_normal_mode_char s c = (s, [Op.screen_tab])) ∧
    (c = LF ∨ c = VT ∨ c = FF ∨ c = NEL →
      handle_normal_mode_char s c = (s, [Op.screen_linefeed])) ∧
    (c = CR → handle_normal_mode_char s c = (s, [Op.screen_carriage_return])) ∧
    (c = IND → handle_normal_mode_char s c = (s, [Op.screen_index])) ∧
    (c = RI → handle_normal_mode_char s c = (s, [Op.screen_reverse_index])) ∧
    (c = HTS → handle_normal_mode_char s c = (s, [Op.screen_set_tab_stop])) ∧
    (c = SO → handle_normal_mode_char s c = (s, [Op.report_error ParseError.charset_so])) ∧
    (c = SI → handle_normal_mode_char s c = (s, [Op.report_error ParseError.charset_si])) ∧
    (c = ESC ∨ c = CSI ∨ c = OSC ∨ c = DCS →
      handle_normal_mode_char s c = ({ s with parser_state := c, parser_buf_pos := 0 }, [])) ∧
    (c = NUL ∨ c = DEL → handle_normal_mode_char s c = (s, [])) ∧
    (c ∉ [BEL, BS, HT, LF, VT, FF, NEL, CR, IND, RI, HTS, SO, SI, ESC, CSI, OSC, DCS, NUL, DEL] →
      handle_normal_mode_char s c = (s, [Op.screen_draw c])) ∧
    (handle_normal_mode_char s c).2.length ≤ 1 ∧
    ((handle_normal_mode_char s c).1 = s ∨ (handle_normal_mode_char s c).2 = []) := by
  refine ⟨?_, ?_, ?_, ?_, ?_, ?_, ?_, ?_, ?_, ?_, ?_, ?_, ?_, ?_, ?_⟩
  iterate 13
    intro h
    first
      | (subst h; simp [handle_normal_mode_char])
      | (rcases h with h | h | h | h <;> subst h <;> simp [handle_normal_mode_char, SET_STATE])
      | (rcases h with h | h <;> subst h <;> simp [handle_normal_mode_char])
      | (simp at h; simp [handle_normal_mode_char, h])
  · unfold handle_normal_mode_char
    repeat' (apply ite_cases (P := fun r : Screen × List Op => r.2.length ≤ 1) <;> intro _)
    all_goals simp
  · unfold handle_normal_mode_char
    repeat' (apply ite_cases (P := fun r : Screen × List Op => r.1 = s ∨ r.2 = []) <;> intro _)
    all_goals simp

/-- C9.  From Normal with a clean decoder state, the two bytes ESC `c` are parsed
into exactly one reset dispatch and leave the parser in Normal with buffer position
0; ESC followed by each other one-shot final byte (`D` index, `E` linefeed,
`M` reverse index, `H` set tab stop, `7` save cursor, `8` restore cursor,
`>` normal keypad, `=` alternate keypad) gives exactly its one dispatch, no error
report, and the same final state. -/
theorem C9_escape_one_shot_commands (decode : Decoder) (hdec : AsciiDecoder decode) (s : Screen)
    (hstate : s.parser_state = 0) (hutf : s.utf8_state = UTF8_ACCEPT) :
    _parse_bytes decode s [ESC, ESC_RIS] = some (SET_STATE s 0, [Op.screen_reset]) ∧
    _parse_bytes decode s [ESC, ESC_IND] = some (SET_STATE s 0, [Op.screen_index]) ∧
    _parse_bytes decode s [ESC, ESC_NEL] = some (SET_STATE s 0, [Op.screen_linefeed]) ∧
    _parse_bytes decode s [ESC, ESC_RI] = some (SET_STATE s 0, [Op.screen_reverse_index]) ∧
    _parse_bytes decode s [ESC, ESC_HTS] = some (SET_STATE s 0, [Op.screen_set_tab_stop]) ∧
    _parse_bytes decode s [ESC, ESC_DECSC] = some (SET_STATE s 0, [Op.screen_save_cursor]) ∧
    _parse_bytes decode s [ESC, ESC_DECRC] = some (SET_STATE s 0, [Op.screen_restore_cursor]) ∧
    _parse_bytes decode s [ESC, ESC_DECPNM]
      = some (SET_STATE s 0, [Op.screen_normal_keypad_mode]) ∧
    _parse_bytes decode s [ESC, ESC_DECPAM]
      = some (SET_STATE s 0, [Op.screen_alternate_keypad_mode]) := by
  refine ⟨?_, ?_, ?_, ?_, ?_, ?_, ?_, ?_, ?_⟩ <;>
    (rw [_parse_bytes_esc decode hdec s _ hstate hutf (by decide)]
     simp [handle_esc_mode_char, SET_STATE])

/-- Witness of C9 with the table-driven decoder, on a screen in Normal mode whose
buffer position is stale. -/
theorem C9_escape_one_shot_commands_witness :
    _parse_bytes decode_utf8 ⟨0, 1, [0x28, 0], 0⟩ [0x1b, 0x63]
      = some (⟨0, 0, [0x28, 0], 0⟩, [Op.screen_reset]) :=
  (C9_escape_one_shot_commands decode_utf8 decode_utf8_ascii ⟨0, 1, [0x28, 0], 0⟩ rfl rfl).1

/-- C10.  From Normal with a clean decoder state, ESC `[` emits nothing and leaves
the parser in CSI with buffer position 0; ESC `]` does the same into OSC and ESC `P`
into DCS. -/
theorem C10_escape_introducers (decode : Decoder) (hdec : AsciiDecoder decode) (s : Screen)
    (hstate : s.parser_state = 0) (hutf : s.utf8_state = UTF8_ACCEPT) :
    _parse_bytes decode s [ESC, 0x5b] = some (SET_STATE s CSI, []) ∧
    _parse_bytes decode s [ESC, 0x5d] = some (SET_STATE s OSC, []) ∧
    _parse_bytes decode s [ESC, 0x50] = some (SET_STATE s DCS, []) := by
  refine ⟨?_, ?_, ?_⟩ <;>
    (rw [_parse_bytes_esc decode hdec s _ hstate hutf (by decide)]
     simp [handle_esc_mode_char, SET_STATE])

/-- Witness of C10 with the table-driven decoder. -/
theorem C10_escape_introducers_witness :
    _parse_bytes decode_utf8 ⟨0, 0, [0, 0], 0⟩ [0x1b, 0x5b] = some (⟨0x9b, 0, [0, 0], 0⟩, []) :=
  (C10_escape_introducers decode_utf8 decode_utf8_ascii ⟨0, 0, [0, 0], 0⟩ rfl rfl).1

/-- C11.  For a UTF-8 decoder, from Normal with a clean decoder state and a buffer of
at least one cell: the encoded input ESC `sel` `c`, with `sel` a charset selector and
`c` any Unicode scalar value, makes `_parse_bytes` end in Normal at position 0 (with
`sel` stored in cell 0) and emit no dispatch; it emits nothing at all when `sel` is
`%` and `c` is `G`, and exactly one "unhandled charset related escape" report in
every other case. -/
theorem C11_escape_second_byte (decode : Decoder) (hdec : Utf8Decoder decode) (s : Screen)
    (sel c : Nat) (hstate : s.parser_state = 0) (hutf : s.utf8_state = UTF8_ACCEPT)
    (hcap : 1 ≤ PARSER_BUF_SZ s) (hsel : CharsetSelector sel) (hc : IsScalar c) :
    _parse_bytes decode s (utf8_encode_all [ESC, sel, c])
      = some ({ s with parser_state := 0, parser_buf_pos := 0,
                       parser_buf := s.parser_buf.set 0 sel },
          if sel = 0x25 ∧ c = 0x47 then []
          else [Op.report_error (ParseError.unhandled_charset sel (buf_read s 1))]) := by
  have hsc : ∀ x ∈ [ESC, sel, c], IsScalar x := by
    intro x hx
    simp only [List.mem_cons, List.mem_singleton, List.mem_nil_iff, or_false] at hx
    rcases hx with h | h | h
    · rw [h]; decide
    · rw [h]; exact Or.inl (by have := charset_selector_lt sel hsel; omega)
    · rw [h]; exact hc
  have hl : (utf8_encode_all [ESC, sel, c]).length < 2 ^ 32 := by
    have h := utf8_encode_all_length_le [ESC, sel, c]
    simp only [List.length_cons, List.length_nil] at h
    omega
  rw [_parse_bytes_encoded decode hdec s _ hutf hsc hl,
    accept_codepoints_esc_selector s sel c hstate hcap hsel]

/-- Witness of C11: ESC `(` followed by U+00E9, with the table-driven decoder. -/
theorem C11_escape_second_byte_witness :
    _parse_bytes decode_utf8 ⟨0, 0, [0, 7, 0, 0], 0⟩ (utf8_encode_all [ESC, 0x28, 0xE9])
      = some (⟨0, 0, [0x28, 7, 0, 0], 0⟩,
          [Op.report_error (ParseError.unhandled_charset 0x28 7)]) :=
  C11_escape_second_byte decode_utf8 decode_utf8_reads_utf8 ⟨0, 0, [0, 7, 0, 0], 0⟩ 0x28 0xE9
    rfl rfl (by decide) (by decide) (by decide)

/-- C12.  From Escape mode at position 0, for all codepoints `c1`, `c2`: the Escape
handler leaves the parser in Escape mode after `c1` exactly when `c1` is one of the
nine charset-selector bytes, the position is then 1, and the handler run on `c2`
from there ends in Normal mode; and a `c1` that is neither a final byte of the fixed
table nor a selector gives exactly one "unknown char after ESC" report and Normal
mode at position 0. -/
theorem C12_escape_resolves_in_two_codepoints (s : Screen) (c1 c2 : Nat)
    (hstate : s.parser_state = ESC) (hpos : s.parser_buf_pos = 0) :
    ((handle_esc_mode_char s c1).1.parser_state = ESC ↔ CharsetSelector c1) ∧
      (CharsetSelector c1 →
        (handle_esc_mode_char s c1).1.parser_buf_pos = 1 ∧
          (handle_esc_mode_char (handle_esc_mode_char s c1).1 c2).1.parser_state = 0) ∧
      (¬EscFinal c1 → ¬CharsetSelector c1 →
        handle_esc_mode_char s c1
          = ({ s with parser_state := 0, parser_buf_pos := 0 },
              [Op.report_error (ParseError.unknown_esc c1)])) := by
  have hsel : CharsetSelector c1 → (handle_esc_mode_char s c1).1.parser_state = ESC ∧
      (handle_esc_mode_char s c1).1.parser_buf_pos = 1 := by
    intro h
    rw [handle_esc_mode_char_selector s c1 hpos h]
    exact ⟨(buf_write_parser_state s 0 c1).trans hstate, rfl⟩
  refine ⟨⟨?_, fun h => (hsel h).1⟩, ?_, ?_⟩
  · intro h
    by_contra hc
    by_cases hf : EscFinal c1
    · exact (handle_esc_mode_char_final s c1 hpos hf).1 h
    · rw [handle_esc_mode_char_unknown s c1 hpos hf hc] at h
      simp [SET_STATE] at h
  · intro h
    refine ⟨(hsel h).2, ?_⟩
    rw [handle_esc_mode_char_second _ c2 (by rw [(hsel h).2]; decide)]
    rfl
  · intro hf hc
    exact handle_esc_mode_char_unknown s c1 hpos hf hc

/-- Witness of C12: ESC `(` `B` on a four-cell buffer. -/
theorem C12_escape_resolves_in_two_codepoints_witness :
    (handle_esc_mode_char ⟨ESC, 0, [0, 0, 0, 0], 0⟩ 0x28).1.parser_buf_pos = 1 ∧
      (handle_esc_mode_char (handle_esc_mode_char ⟨ESC, 0, [0, 0, 0, 0], 0⟩ 0x28).1 0x42).1.parser_state
        = 0 :=
  (C12_escape_resolves_in_two_codepoints ⟨ESC, 0, [0, 0, 0, 0], 0⟩ 0x28 0x42 rfl rfl).2.1
    (by decide)

/-- C13.  In DCS mode, for every codepoint `c`: ST terminates (payload dispatch, back
to Normal) and is the only codepoint that terminates in every state, and the only
one that terminates while there is room and no ESC is buffered last; BEL does not
terminate (it is reported as non-printable); NUL and DEL change nothing and report
nothing; a `c` that is none of ST, NUL, DEL, ESC, printable ASCII gives exactly one
"non-printable character" report with the session state unchanged (still DCS); ESC
or printable ASCII arriving with room and no ESC buffered last is appended, the
parser staying in DCS. -/
theorem C13_dcs_accumulation (s : Screen) (c : Nat) (hstate : s.parser_state = DCS) :
    accept_codepoint s ST = (SET_STATE s 0, [Op.dispatch_dcs s.parser_buf_pos]) ∧
    ((∀ u : Screen, (accumulate_dcs u c).1 = true) ↔ c = ST) ∧
    (s.parser_buf_pos + 1 < PARSER_BUF_SZ s → NoEscLast s →
      ((accumulate_dcs s c).1 = true ↔ c = ST)) ∧
    accept_codepoint s BEL = (s, [Op.report_error (ParseError.dcs_non_printable BEL)]) ∧
    (c = NUL ∨ c = DEL → accept_codepoint s c = (s, [])) ∧
    (c ≠ ST → c ≠ NUL → c ≠ DEL → c ≠ ESC → ¬(0x20 ≤ c ∧ c ≤ 0x7E) →
      accept_codepoint s c = (s, [Op.report_error (ParseError.dcs_non_printable c)])) ∧
    (c = ESC ∨ (0x20 ≤ c ∧ c ≤ 0x7E) → s.parser_buf_pos + 1 < PARSER_BUF_SZ s → NoEscLast s →
      accept_codepoint s c
        = ({ s with parser_buf := s.parser_buf.set s.parser_buf_pos (parser_buf_cell c),
                    parser_buf_pos := s.parser_buf_pos + 1 }, [])) := by
  have hne : s.parser_state ≠ ESC := by rw [hstate]; decide
  -- in a state with room and no ESC buffered last, only ST terminates
  have only_st : ∀ u : Screen, u.parser_buf_pos + 1 < PARSER_BUF_SZ u → NoEscLast u →
      c ≠ ST → (accumulate_dcs u c).1 = false := by
    intro u hroom hesc h1
    by_cases h2 : c = NUL ∨ c = DEL
    · rw [accumulate_dcs_nul_del u c h2]
    · by_cases h3 : c = ESC ∨ (0x20 ≤ c ∧ c ≤ 0x7E)
      · rw [accumulate_dcs_append u c h3 hesc hroom]
      · simp only [not_or] at h2 h3
        rw [accumulate_dcs_non_printable u c h1 h2.1 h2.2 h3.1 h3.2]
  refine ⟨?_, ⟨?_, ?_⟩, ?_, ?_, ?_, ?_, ?_⟩
  · simp [accept_codepoint, hstate, accumulate_dcs_st, dispatch_dcs, SET_STATE]
  · intro h
    by_contra hc
    have := only_st ⟨DCS, 0, [0, 0], 0⟩ (by decide) (fun h => absurd h.1 (by decide)) hc
    rw [h] at this
    exact absurd this (by decide)
  · intro h u
    rw [h, accumulate_dcs_st]
  · intro hroom hesc
    constructor
    · intro h
      by_contra hc
      rw [only_st s hroom hesc hc] at h
      exact absurd h (by decide)
    · intro h
      rw [h, accumulate_dcs_st]
  · exact accept_codepoint_dcs_continue s s BEL _ hstate
      (accumulate_dcs_non_printable s BEL (by decide) (by decide) (by decide) (by decide)
        (by decide)) hne
  · intro h
    exact accept_codepoint_dcs_continue s s c _ hstate (accumulate_dcs_nul_del s c h) hne
  · intro h1 h2 h3 h4 h5
    exact accept_codepoint_dcs_continue s s c _ hstate
      (accumulate_dcs_non_printable s c h1 h2 h3 h4 h5) hne
  · intro hc hroom hesc
    exact accept_codepoint_dcs_continue s _ c _ hstate (accumulate_dcs_append s c hc hesc hroom)
      hne

/-- Witness of C13: a control character inside DCS is reported and dropped. -/
theorem C13_dcs_accumulation_witness :
    accept_codepoint ⟨DCS, 1, [0x71, 0, 0, 0], 0⟩ 0x01
      = (⟨DCS, 1, [0x71, 0, 0, 0], 0⟩, [Op.report_error (ParseError.dcs_non_printable 0x01)]) :=
  (C13_dcs_accumulation ⟨DCS, 1, [0x71, 0, 0, 0], 0⟩ 0x01 rfl).2.2.2.2.2.1
    (by decide) (by decide) (by decide) (by decide) (by decide)

/-- C14.  Whatever the decoder, when the byte at index `i` is rejected while the
decoder state before it (`prev`) was not clean, the next iteration of the loop runs
on the same index `i` with the decoder state reset to clean (and `prev` clean, so the
byte is not offered a third time).  In particular, for a decoder that reads ASCII as
itself and is mid-sequence after a lead byte: a lead byte `L` (0xC2-0xF4) followed by
a printable ASCII byte `b`, from Normal with a clean decoder state, gives exactly one
draw of `b`, no report, and the session state it started from (decoder state clean). -/
theorem C14_utf8_resynchronisation (decode : Decoder) (hdec : AsciiDecoder decode)
    (hlead : LeadByteDecoder decode) (s : Screen) (L b : Nat) (hstate : s.parser_state = 0)
    (hutf : s.utf8_state = UTF8_ACCEPT) (hL : 0xC2 ≤ L ∧ L ≤ 0xF4)
    (hb : 0x20 ≤ b ∧ b ≤ 0x7E) :
    _parse_bytes decode s [L, b] = some (s, [Op.screen_draw b]) ∧
      ∀ (buf : List Nat) (fuel : Nat) (u : Screen) (prev cp i : Nat), i < buf.length →
        buf.length < 2 ^ 32 → prev ≠ UTF8_ACCEPT →
        (decode u.utf8_state cp (buf.getD i 0)).1 = UTF8_REJECT →
        parse_loop decode buf (fuel + 1) u prev cp i
          = parse_loop decode buf fuel { u with utf8_state := UTF8_ACCEPT } UTF8_ACCEPT
              (decode u.utf8_state cp (buf.getD i 0)).2 i := by
  refine ⟨?_, fun buf fuel u prev cp i hi hlen hprev hrej =>
    parse_loop_reoffer decode buf fuel u prev cp i hi hlen hprev hrej⟩
  rw [_parse_bytes_eq_feed decode s [L, b] (by simp),
    feed_lead_then_ascii decode hdec hlead s L b hutf hL (by omega),
    accept_codepoint_normal s b hstate, handle_normal_mode_char_printable s b hb.1 hb.2]

/-- Witness of C14: the lead byte C3 followed by `A`, with the table-driven decoder. -/
theorem C14_utf8_resynchronisation_witness :
    _parse_bytes decode_utf8 ⟨0, 0, [0, 0], 0⟩ [0xC3, 0x41]
      = some (⟨0, 0, [0, 0], 0⟩, [Op.screen_draw 0x41]) :=
  (C14_utf8_resynchronisation decode_utf8 decode_utf8_ascii decode_utf8_lead_bytes
    ⟨0, 0, [0, 0], 0⟩ 0xC3 0x41 rfl rfl (by decide) (by decide)).1

/-- C15.  Whatever the decoder and the parser mode: when the decoder state is clean
and the decoder rejects the byte `b` from the clean state, `_parse_bytes` on that
single byte emits nothing (no dispatch, no report) and returns the session state
unchanged: parser state, buffer contents and position, and the clean decoder state. -/
theorem C15_invalid_byte_at_clean_state_dropped (decode : Decoder) (s : Screen) (b : Nat)
    (hutf : s.utf8_state = UTF8_ACCEPT) (hrej : (decode UTF8_ACCEPT 0 b).1 = UTF8_REJECT) :
    _parse_bytes decode s [b] = some (s, []) :=
  _parse_bytes_rejected_clean decode s b hutf hrej

/-- Witness of C15: a lone continuation byte 0x80 inside an OSC sequence, with the
table-driven decoder. -/
theorem C15_invalid_byte_at_clean_state_dropped_witness :
    _parse_bytes decode_utf8 ⟨OSC, 1, [0x61, 0, 0, 0], 0⟩ [0x80]
      = some (⟨OSC, 1, [0x61, 0, 0, 0], 0⟩, []) :=
  C15_invalid_byte_at_clean_state_dropped decode_utf8 ⟨OSC, 1, [0x61, 0, 0, 0], 0⟩ 0x80 rfl
    (by decide)

/-- C16 (counterexample).  Two cycles that report a protocol error and end neither in
Normal mode nor in a restarted escape sequence: a control character inside DCS (no
ESC buffered) is reported and the parser stays in DCS; SO handled in CSI mode is
reported and the parser stays in CSI. -/
theorem C16_report_without_return_to_normal :
    accept_codepoint ⟨DCS, 1, [0x71, 0, 0, 0], 0⟩ 0x01
        = (⟨DCS, 1, [0x71, 0, 0, 0], 0⟩, [Op.report_error (ParseError.dcs_non_printable 0x01)]) ∧
      accept_codepoint ⟨CSI, 0, [0, 0, 0, 0], 0⟩ SO
        = (⟨CSI, 0, [0, 0, 0, 0], 0⟩, [Op.report_error ParseError.charset_so]) := by
  decide

/-- C16 (amended).  For every session state and codepoint, if the pipeline cycle emits
an error report then afterwards either the parser is in Normal mode; or the cycle was
the DCS re-entry (ESC buffered last in DCS: one report, then the Escape handler run
on the same codepoint from Escape mode at position 0); or the session state is
exactly what it was before the cycle, which happens for a non-printable codepoint
inside DCS (the only operation is its report) and for SO and SI in the Normal
handler. -/
theorem C16_protocol_error_recovery (s : Screen) (c : Nat) (e : ParseError)
    (herr : Op.report_error e ∈ (accept_codepoint s c).2) :
    (accept_codepoint s c).1.parser_state = 0 ∨
      (s.parser_state = DCS ∧ 0 < s.parser_buf_pos ∧
        buf_read s (s.parser_buf_pos - 1) = ESC ∧
        accept_codepoint s c
          = ((handle_esc_mode_char (SET_STATE s ESC) c).1,
              Op.report_error (ParseError.dcs_non_printable ESC)
                :: (handle_esc_mode_char (SET_STATE s ESC) c).2)) ∨
      ((accept_codepoint s c).1 = s ∧
        ((s.parser_state = DCS ∧
            (accept_codepoint s c).2 = [Op.report_error (ParseError.dcs_non_printable c)]) ∨
          (s.parser_state ≠ ESC ∧ s.parser_state ≠ OSC ∧ s.parser_state ≠ DCS ∧
            (c = SO ∨ c = SI)))) := by
  by_cases h1 : s.parser_state = ESC
  · left
    rw [accept_codepoint_esc s c h1] at herr ⊢
    exact handle_esc_mode_char_error_state s c e herr
  by_cases h2 : s.parser_state = OSC
  · left
    exact accept_codepoint_osc_error_state s c h2 e herr
  by_cases h3 : s.parser_state = DCS
  · by_cases ht : (accumulate_dcs s c).1 = true
    · left
      exact accept_codepoint_dcs_terminated s c h3 ht
    have hst : c ≠ ST := by
      intro h
      rw [h, accumulate_dcs_st] at ht
      exact ht rfl
    by_cases hnd : c = NUL ∨ c = DEL
    · rw [accept_codepoint_dcs_continue s s c _ h3 (accumulate_dcs_nul_del s c hnd) h1] at herr
      simp at herr
    by_cases hp : c = ESC ∨ (0x20 ≤ c ∧ c ≤ 0x7E)
    · by_cases hesc : s.parser_buf_pos > 0 ∧ buf_read s (s.parser_buf_pos - 1) = ESC
      · have hbs : c ≠ 0x5c := by
          intro h
          apply ht
          unfold accumulate_dcs
          rw [if_neg hst, if_neg hnd, if_pos hp, if_pos hesc, if_pos h]
        right; left
        refine ⟨h3, hesc.1, hesc.2, ?_⟩
        have ha := accumulate_dcs_reenter s c hp hbs hesc
        simp [accept_codepoint, h3, ha, SET_STATE]
      · by_cases hfull : s.parser_buf_pos ≥ PARSER_BUF_SZ s - 1
        · exfalso
          apply ht
          unfold accumulate_dcs
          rw [if_neg hst, if_neg hnd, if_pos hp, if_neg hesc, if_pos hfull]
        · rw [accept_codepoint_dcs_continue s _ c _ h3
            (accumulate_dcs_append s c hp hesc (by omega)) h1] at herr
          simp at herr
    · right; right
      simp only [not_or] at hnd hp
      have ha := accept_codepoint_dcs_continue s s c _ h3
        (accumulate_dcs_non_printable s c hst hnd.1 hnd.2 hp.1 hp.2) h1
      rw [ha]
      exact ⟨rfl, Or.inl ⟨h3, rfl⟩⟩
  · right; right
    rw [accept_codepoint_default s c h1 h2 h3] at herr ⊢
    obtain ⟨hs, hc⟩ := handle_normal_mode_char_error_state s c e herr
    exact ⟨hs, Or.inr ⟨h1, h2, h3, hc⟩⟩

/-- Witness of C16 (amended): an oversize OSC payload is reported and the parser is
back in Normal mode. -/
theorem C16_protocol_error_recovery_witness :
    (accept_codepoint ⟨OSC, 1, [0x61, 0], 0⟩ 0x62).1.parser_state = 0 ∨
      (OSC = DCS ∧ 0 < 1 ∧ buf_read ⟨OSC, 1, [0x61, 0], 0⟩ (1 - 1) = ESC ∧
        accept_codepoint ⟨OSC, 1, [0x61, 0], 0⟩ 0x62
          = ((handle_esc_mode_char (SET_STATE ⟨OSC, 1, [0x61, 0], 0⟩ ESC) 0x62).1,
              Op.report_error (ParseError.dcs_non_printable ESC)
                :: (handle_esc_mode_char (SET_STATE ⟨OSC, 1, [0x61, 0], 0⟩ ESC) 0x62).2)) ∨
      ((accept_codepoint ⟨OSC, 1, [0x61, 0], 0⟩ 0x62).1 = ⟨OSC, 1, [0x61, 0], 0⟩ ∧
        ((OSC = DCS ∧
            (accept_codepoint ⟨OSC, 1, [0x61, 0], 0⟩ 0x62).2
              = [Op.report_error (ParseError.dcs_non_printable 0x62)]) ∨
          (OSC ≠ ESC ∧ OSC ≠ OSC ∧ OSC ≠ DCS ∧ (0x62 = SO ∨ 0x62 = SI)))) :=
  C16_protocol_error_recovery ⟨OSC, 1, [0x61, 0], 0⟩ 0x62 ParseError.osc_too_long (by decide)

/-- C17.  `read_bytes` as a function of the outcomes of `read`: any number `k` of
reads failing with EINTR is retried, the result being that of the first other
outcome.  If that outcome is the failure EIO the result is false, nothing is raised,
no operation is emitted and the session state is unchanged; if it is a failure with
another errno an OSError with that errno is raised, again with no operation and the
state unchanged; if it is a successful read of `n` bytes (fewer than 2^32), exactly
those bytes are passed to `_parse_bytes`, whose state and operations are the result,
with true returned if `n > 0` and false if `n = 0`. -/
theorem C17_read_bytes_outcomes (decode : Decoder) (s : Screen) (k : Nat) (errno : Nat)
    (bytes : List Nat) (rest : List ReadOutcome) (herr : errno ≠ EINTR ∧ errno ≠ EIO)
    (hlen : bytes.length < 2 ^ 32) :
    read_bytes decode s (List.replicate k (ReadOutcome.error EINTR)
        ++ ReadOutcome.error EIO :: rest)
      = some (PyResult.py_false, s, []) ∧
    read_bytes decode s (List.replicate k (ReadOutcome.error EINTR)
        ++ ReadOutcome.error errno :: rest)
      = some (PyResult.os_error errno, s, []) ∧
    ∃ r, _parse_bytes decode s bytes = some r ∧
      read_bytes decode s (List.replicate k (ReadOutcome.error EINTR)
          ++ ReadOutcome.data bytes :: rest)
        = some (if bytes.length > 0 then PyResult.py_true else PyResult.py_false, r.1, r.2) := by
  refine ⟨?_, ?_, ?_⟩
  · rw [read_bytes_retries, read_bytes, if_neg (by decide), if_pos rfl]
  · rw [read_bytes_retries, read_bytes, if_neg herr.1, if_neg herr.2]
  · refine ⟨_, _parse_bytes_eq_feed decode s bytes hlen, ?_⟩
    rw [read_bytes_retries, read_bytes, _parse_bytes_eq_feed decode s bytes hlen]

/-- Witness of C17: two interrupted reads, then a read of the bytes "Hi" (with EBADF,
9, as the other errno), with the table-driven decoder. -/
theorem C17_read_bytes_outcomes_witness :
    read_bytes decode_utf8 ⟨0, 0, [0, 0], 0⟩
        [ReadOutcome.error EINTR, ReadOutcome.error EINTR, ReadOutcome.data [0x48, 0x69]]
      = some (PyResult.py_true, ⟨0, 0, [0, 0], 0⟩, [Op.screen_draw 0x48, Op.screen_draw 0x69]) := by
  obtain ⟨r, hr, h⟩ := (C17_read_bytes_outcomes decode_utf8 ⟨0, 0, [0, 0], 0⟩ 2 9 [0x48, 0x69] []
    (by decide) (by decide)).2.2
  have e : r = (⟨0, 0, [0, 0], 0⟩, [Op.screen_draw 0x48, Op.screen_draw 0x69]) := by
    have h2 : _parse_bytes decode_utf8 ⟨0, 0, [0, 0], 0⟩ [0x48, 0x69]
        = some (⟨0, 0, [0, 0], 0⟩, [Op.screen_draw 0x48, Op.screen_draw 0x69]) := by decide
    rw [h2] at hr
    exact (Option.some.inj hr).symm
  rw [e] at h
  exact h

/-- C18.  For a decoder that ignores the accumulator in the clean state, all byte
sequences `a` and `b` with fewer than 2^32 bytes together, and every starting session
state: if `_parse_bytes` on `a` returns with a clean decoder state, then
`_parse_bytes` on `b` from the state it left returns, and the single call on
`a ++ b` returns the same final session state with the operations of the first call
followed by those of the second. -/
theorem C18_chunking_at_codepoint_boundary (decode : Decoder) (hdec : CleanStartDecoder decode)
    (s : Screen) (a b : List Nat) (ra : Screen × List Op) (hlen : (a ++ b).length < 2 ^ 32)
    (ha : _parse_bytes decode s a = some ra) (hclean : ra.1.utf8_state = UTF8_ACCEPT) :
    ∃ rb, _parse_bytes decode ra.1 b = some rb ∧
      _parse_bytes decode s (a ++ b) = some (rb.1, ra.2 ++ rb.2) := by
  have hl : a.length < 2 ^ 32 ∧ b.length < 2 ^ 32 := by
    rw [List.length_append] at hlen
    omega
  rw [_parse_bytes_eq_feed decode s a hl.1] at ha
  have hra : feed decode s 0 a = ra := Option.some.inj ha
  refine ⟨feed decode ra.1 0 b, _parse_bytes_eq_feed decode ra.1 b hl.2, ?_⟩
  rw [_parse_bytes_eq_feed decode s (a ++ b) hlen,
    feed_append decode hdec b 0 a s 0 (by rw [hra]; exact hclean), hra]

/-- Witness of C18: an OSC sequence split inside its payload, with the table-driven
decoder. -/
theorem C18_chunking_at_codepoint_boundary_witness :
    ∃ rb, _parse_bytes decode_utf8 ⟨OSC, 1, [0x61, 0, 0, 0], 0⟩ [0x62, 0x07] = some rb ∧
      _parse_bytes decode_utf8 ⟨0, 0, [0, 0, 0, 0], 0⟩ ([0x1b, 0x5d, 0x61] ++ [0x62, 0x07])
        = some (rb.1, [] ++ rb.2) :=
  C18_chunking_at_codepoint_boundary decode_utf8 decode_utf8_clean_start ⟨0, 0, [0, 0, 0, 0], 0⟩
    [0x1b, 0x5d, 0x61] [0x62, 0x07] (⟨OSC, 1, [0x61, 0, 0, 0], 0⟩, []) (by decide) (by decide) rfl

/-- C19.  Whatever the decoder returns, for every starting session state and every
input of fewer than 2^32 bytes, the loop of `_parse_bytes` terminates within its
`2 * len + 1` iterations.  Its calls of the decoder, in order, fall into one group
per input byte: the byte at index `i` is offered once, or twice, and twice only when
the first offer was rejected while the decoder state before it was not clean, the
second offer then being made from the clean state.  In all the decoder is called at
most `2 * len` times. -/
theorem C19_decode_loop_terminates (decode : Decoder) (s : Screen) (buf : List Nat)
    (hlen : buf.length < 2 ^ 32) :
    ∃ (r : Screen × List Op) (groups : List (List Offer)),
      _parse_bytes decode s buf = some r ∧
      parse_loop_offers decode buf (2 * buf.length + 1) s s.utf8_state 0 0
        = some (r.1, r.2, groups.flatten) ∧
      groups.length = buf.length ∧
      (∀ i, i < buf.length → ByteOffers buf i (groups.getD i [])) ∧
      groups.flatten.length ≤ 2 * buf.length := by
  obtain ⟨t, ops, groups, h, hl, hk, hb⟩ := parse_loop_offers_groups decode buf hlen
    (2 * buf.length + 1) s 0 0 (Nat.zero_le _) (by omega)
  have he := parse_loop_offers_erase decode buf (2 * buf.length + 1) s s.utf8_state 0 0
  rw [h] at he
  refine ⟨(t, ops), groups, ?_, h, by simpa using hl, ?_, by simpa using hb⟩
  · exact he.symm
  · intro i hi
    have := hk i (by omega)
    simpa using this

/-- Witness of C19: the lead byte C3 followed by `A` (offered twice), with the
table-driven decoder. -/
theorem C19_decode_loop_terminates_witness :
    ∃ (r : Screen × List Op) (groups : List (List Offer)),
      _parse_bytes decode_utf8 ⟨0, 0, [0, 0], 0⟩ [0xC3, 0x41] = some r ∧
      parse_loop_offers decode_utf8 [0xC3, 0x41] (2 * [0xC3, 0x41].length + 1) ⟨0, 0, [0, 0], 0⟩
          (⟨0, 0, [0, 0], 0⟩ : Screen).utf8_state 0 0
        = some (r.1, r.2, groups.flatten) ∧
      groups.length = [0xC3, 0x41].length ∧
      (∀ i, i < [0xC3, 0x41].length → ByteOffers [0xC3, 0x41] i (groups.getD i [])) ∧
      groups.flatten.length ≤ 2 * [0xC3, 0x41].length :=
  C19_decode_loop_terminates decode_utf8 ⟨0, 0, [0, 0], 0⟩ [0xC3, 0x41] (by decide)

/-- C20.  In CSI mode the pipeline cycle is the Normal handler: for every codepoint
`c` it emits exactly the operations of `handle_normal_mode_char` and ends in the same
state, and the parser stays in CSI unless `c` is ESC, OSC or DCS (CSI re-enters CSI).
Hence, from Normal with a clean decoder state, ESC `[` followed by printable ASCII
bytes draws each of those bytes and ends in CSI, not in Normal. -/
theorem C20_csi_uses_normal_handler (decode : Decoder) (hdec : AsciiDecoder decode)
    (s t : Screen) (c : Nat) (bs : List Nat) (hstate : s.parser_state = CSI)
    (ht : t.parser_state = 0) (hutf : t.utf8_state = UTF8_ACCEPT)
    (hbs : ∀ b ∈ bs, 0x20 ≤ b ∧ b ≤ 0x7E) (hlen : bs.length + 2 < 2 ^ 32) :
    accept_codepoint s c = handle_normal_mode_char s c ∧
      (c ≠ ESC → c ≠ OSC → c ≠ DCS → (accept_codepoint s c).1.parser_state = CSI) ∧
      _parse_bytes decode t (ESC :: 0x5b :: bs)
        = some ({ t with parser_state := CSI, parser_buf_pos := 0 }, bs.map Op.screen_draw) := by
  have h0 : accept_codepoint s c = handle_normal_mode_char s c :=
    accept_codepoint_default s c (by rw [hstate]; decide) (by rw [hstate]; decide)
      (by rw [hstate]; decide)
  refine ⟨h0, ?_, ?_⟩
  · intro h1 h2 h3
    rw [h0]
    unfold handle_normal_mode_char
    repeat' (apply ite_cases (P := fun r : Screen × List Op => r.1.parser_state = CSI)
      <;> intro hx)
    all_goals first
      | exact hstate
      | (rcases hx with h | h | h | h
         · exact absurd h h1
         · simp [SET_STATE, h]
         · exact absurd h h2
         · exact absurd h h3)
  · have hb : ∀ b ∈ ESC :: 0x5b :: bs, b < 0x80 := by
      intro b hb
      rcases List.mem_cons.1 hb with h | h
      · rw [h]; decide
      · rcases List.mem_cons.1 h with h | h
        · rw [h]; decide
        · have := hbs b h; omega
    rw [_parse_bytes_ascii decode hdec t _ hutf hb (by simpa using hlen)]
    have h1 : accept_codepoint t ESC = (SET_STATE t ESC, []) := by
      simp [accept_codepoint, handle_normal_mode_char, ht]
    have h2 : accept_codepoint (SET_STATE t ESC) 0x5b = (SET_STATE t CSI, []) := by
      simp [accept_codepoint, handle_esc_mode_char, SET_STATE]
    have h3 : ∀ (u : Screen), u.parser_state = CSI → ∀ cs : List Nat,
        (∀ b ∈ cs, 0x20 ≤ b ∧ b ≤ 0x7E) → accept_codepoints u cs = (u, cs.map Op.screen_draw) := by
      intro u hu cs
      induction cs with
      | nil => intro _; rfl
      | cons x rest ih =>
        intro h
        have hx := h x (List.mem_cons_self _ _)
        rw [accept_codepoints_cons,
          accept_codepoint_default u x (by rw [hu]; decide) (by rw [hu]; decide)
            (by rw [hu]; decide),
          handle_normal_mode_char_printable u x hx.1 hx.2,
          ih (fun y hy => h y (List.mem_cons_of_mem _ hy))]
        rfl
    rw [accept_codepoints_cons, h1, accept_codepoints_cons, h2, h3 _ rfl bs hbs]
    rfl

/-- Witness of C20: ESC `[` `A` `B` is drawn as `A` `B` in CSI mode. -/
theorem C20_csi_uses_normal_handler_witness :
    _parse_bytes decode_utf8 ⟨0, 0, [0, 0], 0⟩ (ESC :: 0x5b :: [0x41, 0x42])
      = some (⟨CSI, 0, [0, 0], 0⟩, [Op.screen_draw 0x41, Op.screen_draw 0x42]) :=
  (C20_csi_uses_normal_handler decode_utf8 decode_utf8_ascii ⟨CSI, 0, [0, 0], 0⟩ ⟨0, 0, [0, 0], 0⟩
    0x41 [0x41, 0x42] rfl rfl rfl (by decide) (by decide)).2.2
end Kitty
